import Mathlib

/-!
Verification development for the travel RAG retrieval core.

This file gives a shallow embedding, in Lean 4, of the query-understanding and
rank-fusion pipeline of the repository (`src/retrieval/activity_matcher.py`,
`src/retrieval/hybrid_retriever.py`, `src/retrieval/improved_retriever.py`,
`src/retrieval/query_rewriter.py`), and proves properties of that embedding.

Python strings are modelled as `List Char`; Python floats are modelled as `ℚ`
(every score computed by the embedded code is an exact rational, so this is
faithful); Python dicts are modelled as association lists with Python's
insertion-order-preserving update semantics; a Python `set` used only for
membership / deduplication is modelled as a list deduplicated keeping first
occurrences (Python's `set` iteration order is unspecified, so any
deterministic choice is a faithful refinement wherever, as here, the proved
statements do not depend on that order).
-/

set_option allowUnsafeReducibility true in
attribute [semireducible] Rat.add Rat.mul Rat.inv

/-! ## Python string primitives (on `List Char`) -/

/-- Python's whitespace class (`str.strip`, regex `\s`): space, tab, newline,
carriage return, form feed, vertical tab. -/
def pyIsSpace (c : Char) : Bool :=
  c = ' ' || c = '\t' || c = '\n' || c = '\r' || c = '\x0c' || c = '\x0b'

/-- Python `str.lower` (ASCII-relevant part, via `Char.toLower`). -/
def lowerStr (s : List Char) : List Char := s.map Char.toLower

/-- Python `str.strip()`: drop whitespace at both ends. -/
def stripStr (s : List Char) : List Char :=
  ((s.dropWhile pyIsSpace).reverse.dropWhile pyIsSpace).reverse

/-- Python `re.sub(r'\s+', ' ', s)`: every maximal whitespace run becomes one
space. -/
def collapseWs : List Char → List Char
  | [] => []
  | [c] => if pyIsSpace c then [' '] else [c]
  | c1 :: c2 :: t =>
    if pyIsSpace c1 then
      (if pyIsSpace c2 then collapseWs (c2 :: t) else ' ' :: collapseWs (c2 :: t))
    else c1 :: collapseWs (c2 :: t)

/-- `ActivityMatcher._normalize` (activity_matcher.py lines 97-111):
lower-case, strip, collapse internal whitespace. -/
def pyNormalize (s : List Char) : List Char := collapseWs (stripStr (lowerStr s))

/-- Does `s` start with `pre`? -/
def startsWith : List Char → List Char → Bool
  | [], _ => true
  | _ :: _, [] => false
  | p :: ps, c :: cs => p = c && startsWith ps cs

/-- Python `needle in hay` on strings: contiguous-substring containment
(the empty needle is contained in every string). -/
def containsSub (hay needle : List Char) : Bool :=
  startsWith needle hay ||
    match hay with
    | [] => false
    | _ :: t => containsSub t needle

/-- Python `s.endswith('s')`. -/
def endsS (s : List Char) : Bool :=
  match s.getLast? with
  | some c => c = 's'
  | none => false

/-- Python `s.endswith('es')`. -/
def endsEs (s : List Char) : Bool :=
  match s.reverse with
  | c1 :: c2 :: _ => c1 = 's' && c2 = 'e'
  | _ => false

/-- Python `s[:-1]`. -/
def dropLast1 (s : List Char) : List Char := s.dropLast

/-- Python `s[:-2]`. -/
def dropLast2 (s : List Char) : List Char := s.dropLast.dropLast

/-- Python `s.rstrip(chars)`: remove from the right every character belonging
to the character set `chars` (NOT suffix removal). -/
def pyRstrip (chars : List Char) (s : List Char) : List Char :=
  (s.reverse.dropWhile (fun c => c ∈ chars)).reverse

/-- `' OR '.join(terms)`. -/
def joinOr : List (List Char) → List Char
  | [] => []
  | [t] => t
  | t :: ts => t ++ (' ' :: 'O' :: 'R' :: ' ' :: joinOr ts)

/-- Deduplicate keeping first occurrences, accumulator form. -/
def addKeys {α : Type} [DecidableEq α] (ks : List α) : List α → List α
  | [] => ks
  | k :: t => addKeys (if k ∈ ks then ks else ks ++ [k]) t

/-- Deduplicate a list keeping first occurrences (deterministic model of a
Python `set` built by successive insertion). -/
def dedupFirst {α : Type} [DecidableEq α] (l : List α) : List α := addKeys [] l

/-! ## Association lists with Python-dict semantics -/

/-- Python dict read `m.get(k)` / `m[k]`: first (unique) binding. -/
def dget {κ ν : Type} [DecidableEq κ] : List (κ × ν) → κ → Option ν
  | [], _ => none
  | (k0, v) :: t, k => if k0 = k then some v else dget t k

/-- Python `m.get(k, d)`. -/
def dgetD {κ ν : Type} [DecidableEq κ] (m : List (κ × ν)) (k : κ) (d : ν) : ν :=
  (dget m k).getD d

/-- Python dict write `m[k] = v`: update in place when the key exists
(keeping its position), otherwise append. -/
def dset {κ ν : Type} [DecidableEq κ] : List (κ × ν) → κ → ν → List (κ × ν)
  | [], k, v => [(k, v)]
  | (k0, v0) :: t, k, v => if k0 = k then (k, v) :: t else (k0, v0) :: dset t k v

/-! ## ActivityMatcher (src/retrieval/activity_matcher.py) -/

/-- `ActivityMatcher.SYNONYMS` (activity_matcher.py lines 14-33), transcribed
verbatim in source order. -/
def SYNONYMS : List (List Char × List (List Char)) :=
  [ ("tour".toList, [ "tours".toList, "tour".toList, "guided tour".toList, "guided tours".toList]),
    ("tours".toList, [ "tour".toList, "tours".toList, "guided tour".toList, "guided tours".toList]),
    ("city tour".toList, [ "city tours".toList, "city tour".toList, "urban tour".toList, "urban tours".toList]),
    ("city tours".toList, [ "city tour".toList, "city tours".toList, "urban tour".toList, "urban tours".toList]),
    ("photography tour".toList, [ "photography tours".toList, "photo tour".toList, "photo tours".toList, "photography tour".toList]),
    ("photography tours".toList, [ "photography tour".toList, "photography tours".toList, "photo tour".toList, "photo tours".toList]),
    ("historical tour".toList, [ "historical tours".toList, "history tour".toList, "history tours".toList, "historical tour".toList]),
    ("historical tours".toList, [ "historical tour".toList, "historical tours".toList, "history tour".toList, "history tours".toList]),
    ("culinary tour".toList, [ "culinary tours".toList, "food tour".toList, "food tours".toList, "culinary tour".toList]),
    ("culinary tours".toList, [ "culinary tour".toList, "culinary tours".toList, "food tour".toList, "food tours".toList]),
    ("wine tasting".toList, [ "wine tastings".toList, "wine tasting".toList, "tasting".toList, "tastings".toList]),
    ("snorkeling".toList, [ "snorkeling".toList, "snorkel".toList, "snorkelling".toList, "snorkel diving".toList]),
    ("diving".toList, [ "diving".toList, "scuba diving".toList, "dive".toList]),
    ("hiking".toList, [ "hiking".toList, "hike".toList, "trekking".toList, "trek".toList]),
    ("beach".toList, [ "beaches".toList, "beach".toList, "beach activities".toList]),
    ("beaches".toList, [ "beach".toList, "beaches".toList, "beach activities".toList]),
    ("museum".toList, [ "museums".toList, "museum".toList, "gallery".toList, "galleries".toList]),
    ("museums".toList, [ "museum".toList, "museums".toList, "gallery".toList, "galleries".toList])]

/-- `ActivityMatcher.CATEGORIES` (activity_matcher.py lines 36-81), transcribed
verbatim in source order. -/
def CATEGORIES : List (List Char × List (List Char)) :=
  [ ("outdoor".toList,
     [ "hiking".toList, "trekking".toList, "camping".toList, "rock climbing".toList, "cycling".toList, "kayaking".toList,
       "rafting".toList, "paragliding".toList, "skydiving".toList, "bungee jumping".toList, "zip-lining".toList,
       "snorkeling".toList, "diving".toList, "surfing".toList, "beach".toList, "beaches".toList, "fishing".toList,
       "bird watching".toList, "wildlife viewing".toList, "glacier tours".toList, "volcano tours".toList,
       "cave exploration".toList, "adventure tours".toList]),
    ("outdoor activities".toList,
     [ "hiking".toList, "trekking".toList, "camping".toList, "rock climbing".toList, "cycling".toList,
       "kayaking".toList, "rafting".toList, "paragliding".toList, "snorkeling".toList, "diving".toList,
       "surfing".toList, "beach".toList, "beaches".toList, "fishing".toList, "adventure tours".toList]),
    ("adventure".toList,
     [ "hiking".toList, "trekking".toList, "rock climbing".toList, "kayaking".toList, "rafting".toList,
       "paragliding".toList, "skydiving".toList, "bungee jumping".toList, "zip-lining".toList,
       "snorkeling".toList, "diving".toList, "surfing".toList, "glacier tours".toList, "volcano tours".toList,
       "cave exploration".toList, "adventure tours".toList]),
    ("adventure activities".toList,
     [ "hiking".toList, "trekking".toList, "rock climbing".toList, "kayaking".toList, "rafting".toList,
       "paragliding".toList, "skydiving".toList, "bungee jumping".toList, "snorkeling".toList,
       "diving".toList, "surfing".toList, "adventure tours".toList]),
    ("wellness".toList,
     [ "yoga".toList, "spa treatments".toList, "meditation".toList, "wellness retreats".toList, "hot springs".toList,
       "massage".toList, "relaxation".toList, "mindfulness".toList]),
    ("wellness retreats".toList,
     [ "yoga".toList, "spa treatments".toList, "meditation".toList, "wellness retreats".toList,
       "hot springs".toList, "massage".toList, "relaxation".toList]),
    ("cultural".toList,
     [ "museums".toList, "art galleries".toList, "temple visits".toList, "historical tours".toList,
       "cultural experiences".toList, "traditional ceremonies".toList, "tea ceremonies".toList,
       "cultural heritage".toList, "local traditions".toList]),
    ("cultural activities".toList,
     [ "museums".toList, "art galleries".toList, "temple visits".toList, "historical tours".toList,
       "cultural experiences".toList, "traditional ceremonies".toList, "tea ceremonies".toList]),
    ("entertainment".toList,
     [ "nightlife".toList, "bars".toList, "clubs".toList, "concerts".toList, "festivals".toList, "casinos".toList,
       "theater".toList, "opera".toList, "sports events".toList, "jazz clubs".toList, "music venues".toList]),
    ("nightlife".toList,
     [ "bars".toList, "clubs".toList, "nightlife".toList, "jazz clubs".toList, "music venues".toList, "casinos".toList]),
    ("culinary".toList,
     [ "culinary tours".toList, "food tours".toList, "cooking classes".toList, "wine tasting".toList,
       "restaurants".toList, "fine dining".toList, "street food tours".toList, "seafood dining".toList,
       "sushi dining".toList, "tapas tours".toList]),
    ("food".toList,
     [ "culinary tours".toList, "food tours".toList, "cooking classes".toList, "restaurants".toList,
       "fine dining".toList, "street food tours".toList, "seafood dining".toList, "sushi dining".toList]),
    ("water sports".toList,
     [ "snorkeling".toList, "diving".toList, "surfing".toList, "kayaking".toList, "rafting".toList,
       "swimming".toList, "beach".toList, "beaches".toList, "water sports".toList]),
    ("water activities".toList,
     [ "snorkeling".toList, "diving".toList, "surfing".toList, "kayaking".toList, "swimming".toList,
       "beach".toList, "beaches".toList, "water sports".toList]),
    ("sports".toList,
     [ "cycling".toList, "hiking".toList, "surfing".toList, "tennis".toList, "golf".toList, "beach volleyball".toList,
       "skiing".toList, "snowboarding".toList, "ice skating".toList, "sports events".toList]),
    ("photography".toList,
     [ "photography tours".toList, "photo tours".toList, "photography".toList, "stargazing".toList]),
    ("nature".toList,
     [ "hiking".toList, "bird watching".toList, "wildlife viewing".toList, "stargazing".toList,
       "glacier tours".toList, "volcano tours".toList, "cave exploration".toList, "hot springs".toList,
       "Northern Lights viewing".toList]),
    ("indoor".toList,
     [ "museums".toList, "art galleries".toList, "spa treatments".toList, "cooking classes".toList,
       "wine tasting".toList, "casinos".toList, "theater".toList, "opera".toList, "shopping".toList])]

/-- The reverse synonym lookup built by `ActivityMatcher.__init__`
(activity_matcher.py lines 83-95): for a normalized term `n`, the union over
every `(key, synonyms)` entry whose normalized synonyms contain `n` of
the normalized key together with all normalized synonyms of that entry.
(The Python code stores this as `_synonym_map`, a dict of sets; only its
membership is ever consumed, so a list with duplicates is an equivalent model;
an absent key corresponds to the empty result.) -/
def synonymMapLookup (n : List Char) : List (List Char) :=
  SYNONYMS.foldr
    (fun p acc =>
      if n ∈ p.2.map pyNormalize then (pyNormalize p.1 :: p.2.map pyNormalize) ++ acc else acc)
    []

/-- `ActivityMatcher._simple_similarity` (activity_matcher.py lines 164-176). -/
def simple_similarity (s1 s2 : List Char) : ℚ :=
  if s1 = [] ∨ s2 = [] then 0
  else
    let common : ℕ := (s1.filter (fun c => c ∈ s2)).length
    let maxLen : ℕ := max s1.length s2.length
    if maxLen = 0 then 1 else (common : ℚ) / (maxLen : ℚ)

/-- `ActivityMatcher._is_plural_variant` (activity_matcher.py lines 147-162).
Note the bases are computed with Python `rstrip`, which strips a trailing
character CLASS, not a literal suffix. -/
def is_plural_variant (a1 a2 : List Char) : Bool :=
  let a1Base := pyRstrip ['i', 'n', 'g'] (pyRstrip ['e', 's'] (pyRstrip ['s'] a1))
  let a2Base := pyRstrip ['i', 'n', 'g'] (pyRstrip ['e', 's'] (pyRstrip ['s'] a2))
  if a1Base = a2Base ∧ a1Base.length > 2 then true
  else if a1 = a2 ++ ['s'] ∨ a1 = a2 ++ ['e', 's'] then true
  else if a2 = a1 ++ ['s'] ∨ a2 = a1 ++ ['e', 's'] then true
  else false

/-- `ActivityMatcher._fuzzy_match` (activity_matcher.py lines 113-145),
threshold defaulting to 0.8 at call sites that omit it. -/
def fuzzy_match (query_activity data_activity : List Char) (threshold : ℚ) : Bool :=
  let query_norm := pyNormalize query_activity
  let data_norm := pyNormalize data_activity
  if query_norm = data_norm then true
  else if containsSub data_norm query_norm || containsSub query_norm data_norm then true
  else if is_plural_variant query_norm data_norm then true
  else if simple_similarity query_norm data_norm ≥ threshold then true
  else false

/-- `ActivityMatcher.expand_activity` (activity_matcher.py lines 178-221).
The Python function accumulates a `set`; this model accumulates the same
elements as a list (possibly with duplicates), which is membership-equivalent. -/
def expand_activity (activity : List Char) : List (List Char) :=
  let normalized := pyNormalize activity
  let base := [normalized, stripStr (lowerStr activity)]
  let catDirect :=
    match dget CATEGORIES normalized with
    | some acts => acts ++ acts.map pyNormalize
    | none => []
  let catSub :=
    CATEGORIES.foldr
      (fun p acc =>
        if containsSub p.1 normalized || containsSub normalized p.1 then
          (p.2 ++ p.2.map pyNormalize) ++ acc
        else acc)
      []
  let synMap := synonymMapLookup normalized
  let plural := if endsS normalized then [dropLast1 normalized] else [normalized ++ ['s']]
  let synDirect :=
    match dget SYNONYMS normalized with
    | some syns => syns.map pyNormalize
    | none => []
  base ++ catDirect ++ catSub ++ synMap ++ plural ++ synDirect

/-- `ActivityMatcher.match_activities` (activity_matcher.py lines 236-268):
any data activity is an exact member of the expanded query set, or fuzzy-matches
(at the default 0.8 threshold) some expanded query term. -/
def match_activities (query_activities data_activities : List (List Char)) : Bool :=
  if query_activities = [] ∨ data_activities = [] then false
  else
    let expanded_queries := query_activities.flatMap expand_activity
    data_activities.any fun data_activity =>
      pyNormalize data_activity ∈ expanded_queries ||
        expanded_queries.any fun q => fuzzy_match q data_activity (4 / 5)

/-! ## HybridRetriever.reciprocal_rank_fusion (src/retrieval/hybrid_retriever.py) -/

/-- A retrieved document as the fusion code sees it: its identifier and the
relevance score its source backend assigned to it (plus nothing else that the
fusion reads — `doc.copy()` carries every field, which the model represents by
carrying the whole `Doc`). -/
structure Doc where
  doc_id : List Char
  score : ℚ
deriving DecidableEq

/-- One fused output entry: the copied source document with the three score
fields that `reciprocal_rank_fusion` adds to it. -/
structure FusedDoc where
  doc : Doc
  rrf_score : ℚ
  bm25_score : ℚ
  vector_score : ℚ
deriving DecidableEq

/-- The per-list RRF score maps (hybrid_retriever.py lines 44-56): rank is the
1-based enumeration index over the whole list (documents with an empty id are
skipped but still occupy a rank); on a duplicated id the later assignment
overwrites. `r` is the rank of the head of `l`. -/
def buildScoresAux (k : ℚ) : ℕ → List Doc → List (List Char × ℚ) → List (List Char × ℚ)
  | _, [], m => m
  | r, d :: t, m =>
    buildScoresAux k (r + 1) t (if d.doc_id = [] then m else dset m d.doc_id (1 / (k + r)))

/-- `bm25_scores` / `vector_scores` of hybrid_retriever.py lines 44-56. -/
def buildScores (k : ℚ) (l : List Doc) : List (List Char × ℚ) := buildScoresAux k 1 l []

/-- The first combination loop (hybrid_retriever.py lines 62-67): for each BM25
document with a non-empty id, `combined_scores[id] = bm25_scores.get(id, 0)`
and `all_docs[id] = doc.copy()`. -/
def addBm25Docs (bm : List (List Char × ℚ)) :
    List Doc → List (List Char × ℚ) → List (List Char × Doc) →
    List (List Char × ℚ) × List (List Char × Doc)
  | [], comb, all => (comb, all)
  | d :: t, comb, all =>
    if d.doc_id = [] then addBm25Docs bm t comb all
    else addBm25Docs bm t (dset comb d.doc_id (dgetD bm d.doc_id 0)) (dset all d.doc_id d)

/-- The second combination loop (hybrid_retriever.py lines 69-75): for each
vector document with a non-empty id,
`combined_scores[id] = combined_scores.get(id, 0) + vector_scores.get(id, 0)`,
and `all_docs[id] = doc.copy()` only when the id is not yet present. -/
def addVectorDocs (vs : List (List Char × ℚ)) :
    List Doc → List (List Char × ℚ) → List (List Char × Doc) →
    List (List Char × ℚ) × List (List Char × Doc)
  | [], comb, all => (comb, all)
  | d :: t, comb, all =>
    if d.doc_id = [] then addVectorDocs vs t comb all
    else
      addVectorDocs vs t (dset comb d.doc_id (dgetD comb d.doc_id 0 + dgetD vs d.doc_id 0))
        (match dget all d.doc_id with
         | some _ => all
         | none => dset all d.doc_id d)

/-- `combined_scores` after both loops, in dict insertion order. -/
def combinedScores (k : ℚ) (bm25_results vector_results : List Doc) : List (List Char × ℚ) :=
  (addVectorDocs (buildScores k vector_results) vector_results
    (addBm25Docs (buildScores k bm25_results) bm25_results [] []).1
    (addBm25Docs (buildScores k bm25_results) bm25_results [] []).2).1

/-- `all_docs` after both loops. -/
def allDocs (k : ℚ) (bm25_results vector_results : List Doc) : List (List Char × Doc) :=
  (addVectorDocs (buildScores k vector_results) vector_results
    (addBm25Docs (buildScores k bm25_results) bm25_results [] []).1
    (addBm25Docs (buildScores k bm25_results) bm25_results [] []).2).2

/-- The sort order of hybrid_retriever.py lines 78-82:
`sorted(..., key=lambda x: x[1], reverse=True)`, descending by score. -/
def scoreGe (x y : List Char × ℚ) : Prop := y.2 ≤ x.2

instance : DecidableRel scoreGe := fun x y => inferInstanceAs (Decidable (y.2 ≤ x.2))

instance : IsTotal (List Char × ℚ) scoreGe := ⟨fun x y => le_total y.2 x.2⟩

instance : IsTrans (List Char × ℚ) scoreGe := ⟨fun _ _ _ h1 h2 => le_trans h2 h1⟩

/-- `HybridRetriever.reciprocal_rank_fusion` (hybrid_retriever.py lines 32-93).
Python's `sorted` is the stable descending sort by score; `List.insertionSort
scoreGe` is a stable descending sort by score, and a stable sort's output is
determined uniquely by order and stability, so the two agree. The final loop
(lines 84-91) attaches `rrf_score`, `bm25_score` and `vector_score` to a copy
of the stored document (`all_docs[doc_id]` is always present; the `Doc.mk []
0` default of the model is never read). -/
def reciprocal_rank_fusion (k : ℚ) (bm25_results vector_results : List Doc) : List FusedDoc :=
  let bm := buildScores k bm25_results
  let vs := buildScores k vector_results
  let sortedDocs := List.insertionSort scoreGe (combinedScores k bm25_results vector_results)
  sortedDocs.map fun p =>
    { doc := dgetD (allDocs k bm25_results vector_results) p.1 ⟨[], 0⟩
      rrf_score := p.2
      bm25_score := dgetD bm p.1 0
      vector_score := dgetD vs p.1 0 }

/-- The default RRF constant (`rrf_k: int = 60`, hybrid_retriever.py line 19). -/
def rrfKDefault : ℚ := 60

/-- The claim-side per-list contribution: `1/(k + rank)` at the 1-based
position of the first document carrying `id`, 0 when absent. -/
def rrfContribution (k : ℚ) (l : List Doc) (id : List Char) : ℚ :=
  match l.findIdx? (fun d => d.doc_id = id) with
  | some i => 1 / (k + (i + 1 : ℕ))
  | none => 0

/-- The non-empty doc ids of a result list, in list order. -/
def validIds (l : List Doc) : List (List Char) :=
  (l.map Doc.doc_id).filter fun s => s ≠ []

/-! ## HybridRetriever.search (src/retrieval/hybrid_retriever.py lines 95-136) -/

/-- The two shapes of dict that `HybridRetriever.search` returns: the
`method = "bm25_only"` shape (with the BM25 result list) and the
`method = "hybrid"` shape (with the RRF-fused list truncated to `limit`, and
the two source counts). -/
inductive HybridResponse where
  | bm25Only (results : List Doc) (num_results : ℕ)
  | hybrid (results : List FusedDoc) (num_results bm25_count vector_count : ℕ)
deriving DecidableEq

/-- `HybridRetriever.search` (hybrid_retriever.py lines 95-136). The BM25 side
is passed in as its result list; the vector side is passed in as
`Except Unit (List Doc)` because `self.vector_retriever.search` can raise
(vector_retriever.py line 42 calls `EmbeddingGenerator.generate_embedding`,
which re-raises any failure, embedding_generator.py lines 38-46) and
`HybridRetriever.search` wraps it in no try/except: an error on the vector
side propagates out of `search`. -/
def hybridSearch (k : ℚ) (bm25_results : List Doc)
    (vector_outcome : Except Unit (List Doc)) (use_hybrid : Bool) (limit : ℕ) :
    Except Unit HybridResponse :=
  if use_hybrid = false then
    Except.ok (HybridResponse.bm25Only bm25_results bm25_results.length)
  else do
    let vector_results ← vector_outcome
    let combined := reciprocal_rank_fusion k bm25_results vector_results
    Except.ok
      (HybridResponse.hybrid (combined.take limit) combined.length
        bm25_results.length vector_results.length)

/-! ## ImprovedRetriever.search_with_filters (src/retrieval/improved_retriever.py) -/

/-- The Whoosh query objects that `search_with_filters` builds: `Term(field,
text)`, `And(subqueries)`, `Or(subqueries)`, and the opaque result of
`QueryParser(field).parse(text)` (parsing is internal to the external Whoosh
backend; the model keeps the parsed field and source text). -/
inductive WQuery where
  | term (field : List Char) (text : List Char)
  | qand (subs : List WQuery)
  | qor (subs : List WQuery)
  | parsed (field : List Char) (text : List Char)

/-- The `"content"` field name. -/
def contentField : List Char := "content".toList

/-- The `"activities"` field name. -/
def activitiesField : List Char := "activities".toList

/-- Python truthiness of an optional string (`if city:`). -/
def optTruthy : Option (List Char) → Bool
  | some s => s ≠ []
  | none => false

/-- One optional location filter's free-text clause (`if city:` parse the
lowered name against the content field, improved_retriever.py lines 65-70). -/
def locationClause : Option (List Char) → List WQuery
  | some c => if c ≠ [] then [WQuery.parsed contentField (lowerStr c)] else []
  | none => []

/-- The city/country free-text clauses (improved_retriever.py lines 65-76; the
fallback pass rebuilds the identical clauses at lines 176-183). -/
def locationClauses (city country : Option (List Char)) : List WQuery :=
  locationClause city ++ locationClause country

/-- `And(queries) if len(queries) > 1 else queries[0]` (improved_retriever.py
lines 149 and 185-188; the list is never empty at either site). -/
def andCombine : List WQuery → WQuery
  | [q] => q
  | qs => WQuery.qand qs

/-- The expanded-activity set of improved_retriever.py lines 80-85: the union
over the filter's activities of `expand_activity` plus the lower-stripped
original (a Python `set`, modelled as first-occurrence deduplication). -/
def expandedActivityPool (activities : List (List Char)) : List (List Char) :=
  dedupFirst
    (activities.flatMap fun a => expand_activity a ++ [stripStr (lowerStr a)])

/-- The texts of the structured-field activity terms (improved_retriever.py
lines 87-113): per expanded term its lower-stripped form, the `+s`/`-s`
variant (lines 96-101: drop a trailing `s` when present and longer than one
character, else append `s` when not `s`-final), and the `+es`/`-es` variant
(lines 103-107), then deduplicated by term text (lines 109-113). -/
def activityTermTexts (pool : List (List Char)) : List (List Char) :=
  dedupFirst
    (pool.flatMap fun e =>
      let n := stripStr (lowerStr e)
      [n] ++
        (if endsS n ∧ n.length > 1 then [dropLast1 n]
         else if ¬ endsS n then [n ++ ['s']] else []) ++
        (if endsEs n then [dropLast2 n]
         else if endsS n ∧ ¬ endsEs n then [n ++ ['e', 's']] else []))

/-- `Or(activity_queries) if len(activity_queries) > 1 else
activity_queries[0]`, `none` when there is no term (improved_retriever.py
lines 119-121 and 140-142). -/
def structuredActivityClause (texts : List (List Char)) : Option WQuery :=
  match texts.map (WQuery.term activitiesField) with
  | [] => none
  | [q] => some q
  | qs => some (WQuery.qor qs)

/-- The content-field activity backstop text (improved_retriever.py lines
125-137): the per-activity expansions plus originals as a list, truncated to
its first 10 entries, deduplicated, joined with `' OR '`. -/
def activityContentText (activities : List (List Char)) : List Char :=
  joinOr
    (dedupFirst
      ((activities.flatMap fun a => expand_activity a ++ [stripStr (lowerStr a)]).take 10))

/-- The clause filter of improved_retriever.py line 145: keep a query unless
it is an `Or`/`Term` instance whose field name is absent or `"activities"`
(an opaque parsed query is neither an `Or` nor a `Term` instance of the
model; Whoosh may in fact parse a one-word text to a `Term` on the `content`
field, which that line would also keep, so the model is observationally
faithful for kept clauses built by this function). -/
def keepClause : WQuery → Bool
  | WQuery.term f _ => f ≠ activitiesField
  | WQuery.qor _ => false
  | _ => true

/-- The strict combined query of improved_retriever.py lines 60-149: the
parsed text query, ANDed with city/country free-text clauses when present
and, when activity filters are present, with the OR of the structured
activity clause and the free-text activity backstop (lines 139-146 replace
the bare structured clause appended at line 121 by that OR). -/
def strictQuery (query : List Char) (city country : Option (List Char))
    (activities : List (List Char)) : WQuery :=
  let base := [WQuery.parsed contentField query] ++ locationClauses city country
  if activities ≠ [] then
    let texts := activityTermTexts (expandedActivityPool activities)
    match structuredActivityClause texts with
    | some sq =>
      let contentQ := WQuery.parsed contentField (activityContentText activities)
      andCombine (((base ++ [sq]).filter keepClause) ++ [WQuery.qor [sq, contentQ]])
    | none => andCombine base
  else andCombine base

/-- The relaxed fallback term list (improved_retriever.py lines 158-167): every
expanded activity term together with its `+s`/`-s` variant (no length guard
here, unlike the strict pass). -/
def fallbackTerms (activities : List (List Char)) : List (List Char) :=
  activities.flatMap fun a =>
    (dedupFirst (expand_activity a)).flatMap fun e =>
      [e] ++ [if endsS e then dropLast1 e else e ++ ['s']]

/-- The relaxed fallback query (improved_retriever.py lines 156-188): one
free-text OR over the deduplicated fallback terms, ANDed with the city and
country free-text clauses when those filters are present; no structured
`activities`-field clause remains. -/
def fallbackQuery (city country : Option (List Char))
    (activities : List (List Char)) : WQuery :=
  andCombine
    ([WQuery.parsed contentField (joinOr (dedupFirst (fallbackTerms activities)))] ++
      locationClauses city country)

/-- `ImprovedRetriever.search_with_filters` (improved_retriever.py lines
39-211), parameterized over the external Whoosh searcher (`searcher`, the
backend) and the result-formatting step of lines 195-209 (`fmt`, a pure map
over the hits the final executed query returned). -/
def search_with_filters {α β : Type} (searcher : WQuery → List α) (fmt : α → β)
    (query : List Char) (city country : Option (List Char))
    (activities : List (List Char)) : List β :=
  let results := searcher (strictQuery query city country activities)
  let final :=
    if activities ≠ [] ∧ results.isEmpty then
      searcher (fallbackQuery city country activities)
    else results
  final.map fmt

mutual

/-- Does a structured `Term` clause over the given field occur anywhere in a
query tree? -/
def hasTermOn (field : List Char) : WQuery → Bool
  | WQuery.term f _ => f = field
  | WQuery.qand subs => hasTermOnList field subs
  | WQuery.qor subs => hasTermOnList field subs
  | WQuery.parsed _ _ => false

/-- `hasTermOn` over a list of subqueries. -/
def hasTermOnList (field : List Char) : List WQuery → Bool
  | [] => false
  | q :: t => hasTermOn field q || hasTermOnList field t

end

/-! ## QueryRewriter.rewrite_query (src/retrieval/query_rewriter.py) -/

/-- A parsed JSON value, as `json.loads` can return it. -/
inductive Json where
  | jnull
  | jbool (b : Bool)
  | jnum (n : Int)
  | jstr (s : List Char)
  | jarr (items : List Json)
  | jobj (fields : List (List Char × Json))

/-- Python truthiness of a JSON value. -/
def truthy : Json → Bool
  | Json.jnull => false
  | Json.jbool b => b
  | Json.jnum n => n ≠ 0
  | Json.jstr s => s ≠ []
  | Json.jarr items => !items.isEmpty
  | Json.jobj fields => !fields.isEmpty

/-- Decimal rendering of an integer (Python `str` on an int). -/
def intStr (n : Int) : List Char :=
  if n < 0 then '-' :: Nat.toDigits 10 n.natAbs else Nat.toDigits 10 n.natAbs

/-- Join with `", "`. -/
def joinComma : List (List Char) → List Char
  | [] => []
  | [t] => t
  | t :: ts => t ++ (',' :: ' ' :: joinComma ts)

mutual

/-- Python `repr` of a JSON value (used by `str` on non-string values;
string escaping inside nested reprs is not modelled, which no proved
statement depends on). -/
def pyRepr : Json → List Char
  | Json.jnull => "None".toList
  | Json.jbool true => "True".toList
  | Json.jbool false => "False".toList
  | Json.jnum n => intStr n
  | Json.jstr s => '\'' :: (s ++ ['\''])
  | Json.jarr items => '[' :: (joinComma (pyReprList items) ++ [']'])
  | Json.jobj fields => Char.ofNat 123 :: (joinComma (pyReprFields fields) ++ [Char.ofNat 125])

/-- `pyRepr` of each array element. -/
def pyReprList : List Json → List (List Char)
  | [] => []
  | v :: t => pyRepr v :: pyReprList t

/-- `pyRepr` of each object field, `'key': value`. -/
def pyReprFields : List (List Char × Json) → List (List Char)
  | [] => []
  | (k, v) :: t => (('\'' :: (k ++ ['\'', ':', ' '])) ++ pyRepr v) :: pyReprFields t

end

/-- Python `str` of a JSON value: the string itself for a string, its repr
otherwise. -/
def pyStr : Json → List Char
  | Json.jstr s => s
  | v => pyRepr v

/-- Everything before the first occurrence of `needle`. -/
def takeUntilSub (needle : List Char) : List Char → List Char
  | [] => []
  | c :: t => if startsWith needle (c :: t) then [] else c :: takeUntilSub needle t

/-- The response clean-up of query_rewriter.py lines 71-78: strip the raw
completion; when it starts with a code fence, take `content.split("```")[1]`
(the text between the first fence and the next fence or the end), drop a
leading `json` tag, and strip again. -/
def cleanContent (raw : List Char) : List Char :=
  let content := stripStr raw
  if startsWith ( "```".toList) content then
    let piece := takeUntilSub ( "```".toList) (content.drop 3)
    let piece := if startsWith ( "json".toList) piece then piece.drop 4 else piece
    stripStr piece
  else content

/-- The `"city"` key. -/
def cityKey : List Char := "city".toList

/-- The `"country"` key. -/
def countryKey : List Char := "country".toList

/-- The `"activities"` key. -/
def activitiesKey : List Char := "activities".toList

/-- The `"original_query"` key. -/
def originalQueryKey : List Char := "original_query".toList

/-- query_rewriter.py lines 88-92 for one of the `city`/`country` keys: when
the key holds a truthy value, `result[key].lower() == "null"` replaces the
literal string `"null"` (case-insensitively) by `None`; on a truthy non-string
value, `.lower()` raises `AttributeError` (caught by the enclosing
`except`). -/
def normalizeNullField (fields : List (List Char × Json)) (key : List Char) :
    Except Unit (List (List Char × Json)) :=
  match dget fields key with
  | some v =>
    if truthy v then
      match v with
      | Json.jstr s =>
        if lowerStr s = "null".toList then Except.ok (dset fields key Json.jnull)
        else Except.ok fields
      | _ => Except.error ()
    else Except.ok fields
  | none => Except.ok fields

/-- query_rewriter.py lines 82-86: when the parsed object's `activities` key
holds a JSON array, keep its truthy entries normalized by
`str(a).lower().strip()`; otherwise set `activities` to the empty array. -/
def normalizeActivities (fs : List (List Char × Json)) : List (List Char × Json) :=
  match dget fs activitiesKey with
  | some (Json.jarr items) =>
    dset fs activitiesKey
      (Json.jarr ((items.filter truthy).map fun a =>
        Json.jstr (stripStr (lowerStr (pyStr a)))))
  | _ => dset fs activitiesKey (Json.jarr [])

/-- The body of the `try` block of `QueryRewriter.rewrite_query`
(query_rewriter.py lines 60-96), with the two external collaborators passed
in: `llm` is the completion text (`none` models the API call raising) and
`jsonParse` is `json.loads` (`none` models a parse error). Subscripting and
item assignment at lines 83-92 on a non-dict JSON value raise `TypeError` in
every case, so a non-object parse result is an error of the body. -/
def rewriteBody (jsonParse : List Char → Option Json) (llm : Option (List Char))
    (q : List Char) : Except Unit Json :=
  match llm with
  | none => Except.error ()
  | some raw =>
    match jsonParse (cleanContent raw) with
    | none => Except.error ()
    | some result =>
      match result with
      | Json.jobj fs =>
        match normalizeNullField (normalizeActivities fs) cityKey with
        | Except.error e => Except.error e
        | Except.ok fields2 =>
          match normalizeNullField fields2 countryKey with
          | Except.error e => Except.error e
          | Except.ok fields3 =>
            Except.ok (Json.jobj (dset fields3 originalQueryKey (Json.jstr q)))
      | _ => Except.error ()

/-- The deterministic fallback dict of query_rewriter.py lines 101-106. -/
def fallbackFilter (q : List Char) : Json :=
  Json.jobj
    [(cityKey, Json.jnull), (countryKey, Json.jnull),
     (activitiesKey, Json.jarr []), (originalQueryKey, Json.jstr q)]

/-- `QueryRewriter.rewrite_query` (query_rewriter.py lines 21-106): the try
body, with every raised error caught and replaced by the fallback dict. -/
def rewrite_query (jsonParse : List Char → Option Json) (llm : Option (List Char))
    (q : List Char) : Json :=
  match rewriteBody jsonParse llm q with
  | Except.ok r => r
  | Except.error _ => fallbackFilter q

/-! ## Spec-side comparison definitions (for refinement checks) -/

/-- `s` ends with the literal suffix `suf`. -/
def endsWithSuffix (suf s : List Char) : Bool := startsWith suf.reverse s.reverse

/-- Modelled from the spec: the claim's base of a term under "stripping
's'/'es'/'ing' suffixes" read as literal suffix removal (longest applicable
suffix first, the standard stemming reading). -/
def specStripSuffix (s : List Char) : List Char :=
  if endsWithSuffix ( "ing".toList) s then s.dropLast.dropLast.dropLast
  else if endsWithSuffix ( "es".toList) s then dropLast2 s
  else if endsWithSuffix ( "s".toList) s then dropLast1 s
  else s

/-- Modelled from the spec: the plural/singular variant relationship as the
claim states it — one string equals the other with a trailing "s" or "es"
appended, or stripping the "s"/"es"/"ing" suffixes from both yields the same
base string of length greater than 2. -/
def specPluralVariant (a b : List Char) : Prop :=
  (a = b ++ ['s'] ∨ a = b ++ ['e', 's'] ∨ b = a ++ ['s'] ∨ b = a ++ ['e', 's']) ∨
    (specStripSuffix a = specStripSuffix b ∧ (specStripSuffix a).length > 2)

/-- The claim's character-overlap similarity: the number of characters of `a`
that appear anywhere in `b`, divided by the larger of the two lengths. -/
def specSimilarity (a b : List Char) : ℚ :=
  ((a.filter fun c => c ∈ b).length : ℚ) / ((max a.length b.length : ℕ) : ℚ)

/-- A JSON value that is not a truthy string lowering to the literal
`"null"` (what the `city`/`country` normalization guarantees of its output). -/
def safeNullStr (v : Json) : Prop :=
  ∀ s, v = Json.jstr s → ¬(s ≠ [] ∧ lowerStr s = "null".toList)

/-! ## Association-list lemmas -/

theorem dget_dset_self {κ ν : Type} [DecidableEq κ] (m : List (κ × ν)) (k : κ) (v : ν) :
    dget (dset m k v) k = some v := by
  induction m with
  | nil => simp [dget, dset]
  | cons p t ih =>
    by_cases h : p.1 = k
    · simp [dset, h, dget]
    · simpa [dset, h, dget] using ih

theorem dget_dset_ne {κ ν : Type} [DecidableEq κ] (m : List (κ × ν)) (k k2 : κ) (v : ν)
    (h : k2 ≠ k) : dget (dset m k v) k2 = dget m k2 := by
  induction m with
  | nil => simp [dget, dset, Ne.symm h]
  | cons p t ih =>
    by_cases hp : p.1 = k
    · have hpk2 : p.1 ≠ k2 := by rw [hp]; exact Ne.symm h
      simp [dset, hp, dget, Ne.symm h, hpk2]
    · by_cases hp2 : p.1 = k2 <;> simp [dset, hp, dget, hp2, ih, h]

theorem keys_dset {κ ν : Type} [DecidableEq κ] (m : List (κ × ν)) (k : κ) (v : ν) :
    (dset m k v).map Prod.fst =
      if k ∈ m.map Prod.fst then m.map Prod.fst else m.map Prod.fst ++ [k] := by
  induction m with
  | nil => simp [dset]
  | cons p t ih =>
    by_cases hp : p.1 = k
    · simp [dset, hp]
    · simp only [dset, if_neg hp, List.map_cons, ih]
      by_cases hk : k ∈ t.map Prod.fst <;> simp [hk, Ne.symm hp]

theorem dget_eq_none_iff {κ ν : Type} [DecidableEq κ] (m : List (κ × ν)) (k : κ) :
    dget m k = none ↔ k ∉ m.map Prod.fst := by
  induction m with
  | nil => simp [dget]
  | cons p t ih =>
    by_cases hp : p.1 = k
    · simp [dget, hp]
    · simp [dget, hp, ih, Ne.symm hp]

theorem dget_isSome_of_mem_keys {κ ν : Type} [DecidableEq κ] (m : List (κ × ν)) (k : κ)
    (h : k ∈ m.map Prod.fst) : ∃ v, dget m k = some v := by
  rcases ho : dget m k with _ | v
  · exact absurd ((dget_eq_none_iff m k).1 ho) (not_not_intro h)
  · exact ⟨v, rfl⟩

theorem mem_of_dget {κ ν : Type} [DecidableEq κ] (m : List (κ × ν)) (k : κ) (v : ν)
    (h : dget m k = some v) : (k, v) ∈ m := by
  induction m with
  | nil => simp [dget] at h
  | cons p t ih =>
    by_cases hp : p.1 = k
    · simp only [dget, if_pos hp] at h
      have hv : p.2 = v := Option.some.inj h
      have hpv : p = (k, v) := by rw [← hp, ← hv]
      rw [← hpv]
      exact List.mem_cons_self _ _
    · simp only [dget, if_neg hp] at h
      exact List.mem_cons_of_mem _ (ih h)

theorem dget_of_mem {κ ν : Type} [DecidableEq κ] (m : List (κ × ν)) (k : κ) (v : ν)
    (hnd : (m.map Prod.fst).Nodup) (h : (k, v) ∈ m) : dget m k = some v := by
  induction m with
  | nil => simp at h
  | cons p t ih =>
    simp only [List.map_cons, List.nodup_cons] at hnd
    rcases List.mem_cons.1 h with he | ht
    · simp [← he, dget]
    · have hk : p.1 ≠ k := by
        rintro rfl
        exact hnd.1 (List.mem_map.2 ⟨(p.1, v), ht, rfl⟩)
      simp only [dget, if_neg hk]
      exact ih hnd.2 ht

theorem keys_nodup_dset {κ ν : Type} [DecidableEq κ] (m : List (κ × ν)) (k : κ) (v : ν)
    (h : (m.map Prod.fst).Nodup) : ((dset m k v).map Prod.fst).Nodup := by
  rw [keys_dset]
  by_cases hk : k ∈ m.map Prod.fst
  · rw [if_pos hk]
    exact h
  · rw [if_neg hk]
    exact List.Nodup.append h (List.nodup_singleton k)
      (by simpa [List.disjoint_singleton] using hk)

theorem addKeys_append {α : Type} [DecidableEq α] (ks : List α) (l1 l2 : List α) :
    addKeys ks (l1 ++ l2) = addKeys (addKeys ks l1) l2 := by
  induction l1 generalizing ks with
  | nil => simp [addKeys]
  | cons a t ih => simp [addKeys, ih]

/-! ## Score-map lemmas -/

theorem dget_buildScoresAux (k : ℚ) (l : List Doc) (r : ℕ) (m : List (List Char × ℚ))
    (id : List Char) (hval : ∀ d ∈ l, d.doc_id ≠ []) (hnd : (l.map Doc.doc_id).Nodup) :
    dget (buildScoresAux k r l m) id =
      match l.findIdx? (fun d => decide (d.doc_id = id)) with
      | some i => some (1 / (k + ((r + i : ℕ) : ℚ)))
      | none => dget m id := by
  induction l generalizing r m with
  | nil => simp [buildScoresAux]
  | cons d t ih =>
    have hd : d.doc_id ≠ [] := hval d (List.mem_cons_self d t)
    simp only [List.map_cons, List.nodup_cons] at hnd
    rw [buildScoresAux, if_neg hd]
    by_cases hid : d.doc_id = id
    · have hnone : t.findIdx? (fun d2 => decide (d2.doc_id = id)) = none := by
        rw [List.findIdx?_eq_none_iff]
        intro x hx
        simp only [decide_eq_false_iff_not]
        intro hxe
        exact hnd.1 (List.mem_map.2 ⟨x, hx, by rw [hxe, ← hid]⟩)
      rw [ih (r + 1) _ (fun d2 h2 => hval d2 (List.mem_cons_of_mem d h2)) hnd.2, hnone]
      rw [List.findIdx?_cons, if_pos (by simpa using hid)]
      simp [hid, dget_dset_self]
    · rw [ih (r + 1) _ (fun d2 h2 => hval d2 (List.mem_cons_of_mem d h2)) hnd.2]
      rw [List.findIdx?_cons, if_neg (by simpa using hid), List.findIdx?_start_succ]
      rcases hfi : t.findIdx? (fun d2 => decide (d2.doc_id = id)) with _ | i
      · simp [hfi, dget_dset_ne _ _ _ _ (fun h => hid h.symm)]
      · simp only [hfi, Option.map_some']
        have harith : r + 1 + i = r + (i + (0 + 1)) := by omega
        rw [harith]

theorem dgetD_buildScores (k : ℚ) (l : List Doc) (id : List Char)
    (hval : ∀ d ∈ l, d.doc_id ≠ []) (hnd : (l.map Doc.doc_id).Nodup) :
    dgetD (buildScores k l) id 0 = rrfContribution k l id := by
  rw [dgetD, buildScores, dget_buildScoresAux k l 1 [] id hval hnd, rrfContribution]
  rcases hfi : l.findIdx? (fun d => decide (d.doc_id = id)) with _ | i
  · simp [hfi, dget]
  · simp only [hfi, Option.getD_some]
    have harith : 1 + i = i + 1 := by omega
    rw [harith]

/-! ## Combination-loop lemmas -/

theorem validIds_cons (d : Doc) (t : List Doc) :
    validIds (d :: t) = if d.doc_id = [] then validIds t else d.doc_id :: validIds t := by
  by_cases hd : d.doc_id = [] <;> simp [validIds, hd]

theorem addBm25Docs_comb (bm : List (List Char × ℚ)) (t : List Doc)
    (comb : List (List Char × ℚ)) (all : List (List Char × Doc)) (id : List Char) :
    dget (addBm25Docs bm t comb all).1 id =
      if id ∈ validIds t then some (dgetD bm id 0) else dget comb id := by
  induction t generalizing comb all with
  | nil => simp [addBm25Docs, validIds]
  | cons d t ih =>
    by_cases hd : d.doc_id = []
    · rw [addBm25Docs, if_pos hd, ih]
      simp [validIds, hd]
    · rw [addBm25Docs, if_neg hd, ih]
      have hvc : validIds (d :: t) = d.doc_id :: validIds t := by
        simp [validIds, hd]
      rw [hvc]
      by_cases hm : id ∈ validIds t
      · simp [hm]
      · by_cases hid : id = d.doc_id
        · simp [hm, hid, dget_dset_self]
        · simp [hm, hid, dget_dset_ne _ _ _ _ hid]

theorem addBm25Docs_all_notmem (bm : List (List Char × ℚ)) (t : List Doc)
    (comb : List (List Char × ℚ)) (all : List (List Char × Doc)) (id : List Char)
    (h : id ∉ validIds t) :
    dget (addBm25Docs bm t comb all).2 id = dget all id := by
  induction t generalizing comb all with
  | nil => simp [addBm25Docs]
  | cons d t ih =>
    by_cases hd : d.doc_id = []
    · rw [addBm25Docs, if_pos hd]
      exact ih _ _ (by simpa [validIds, hd] using h)
    · have h2 := h
      rw [validIds_cons, if_neg hd, List.mem_cons] at h2
      push_neg at h2
      have hvc : id ∉ validIds t ∧ id ≠ d.doc_id := ⟨h2.2, h2.1⟩
      rw [addBm25Docs, if_neg hd, ih _ _ hvc.1, dget_dset_ne _ _ _ _ hvc.2]

theorem addVectorDocs_comb_notmem (vs : List (List Char × ℚ)) (t : List Doc)
    (comb : List (List Char × ℚ)) (all : List (List Char × Doc)) (id : List Char)
    (h : id ∉ validIds t) :
    dget (addVectorDocs vs t comb all).1 id = dget comb id := by
  induction t generalizing comb all with
  | nil => simp [addVectorDocs]
  | cons d t ih =>
    by_cases hd : d.doc_id = []
    · rw [addVectorDocs, if_pos hd]
      exact ih _ _ (by simpa [validIds, hd] using h)
    · have h2 := h
      rw [validIds_cons, if_neg hd, List.mem_cons] at h2
      push_neg at h2
      have hvc : id ∉ validIds t ∧ id ≠ d.doc_id := ⟨h2.2, h2.1⟩
      rw [addVectorDocs, if_neg hd, ih _ _ hvc.1, dget_dset_ne _ _ _ _ hvc.2]

theorem addVectorDocs_comb (vs : List (List Char × ℚ)) (t : List Doc)
    (comb : List (List Char × ℚ)) (all : List (List Char × Doc)) (id : List Char)
    (hnd : (validIds t).Nodup) :
    dget (addVectorDocs vs t comb all).1 id =
      if id ∈ validIds t then some (dgetD comb id 0 + dgetD vs id 0)
      else dget comb id := by
  induction t generalizing comb all with
  | nil => simp [addVectorDocs, validIds]
  | cons d t ih =>
    by_cases hd : d.doc_id = []
    · rw [addVectorDocs, if_pos hd]
      rw [ih _ _ (by simpa [validIds, hd] using hnd)]
      simp [validIds, hd]
    · have hvc : validIds (d :: t) = d.doc_id :: validIds t := by
        simp [validIds, hd]
      rw [hvc] at hnd ⊢
      simp only [List.nodup_cons] at hnd
      rw [addVectorDocs, if_neg hd]
      by_cases hid : id = d.doc_id
      · rw [hid]
        rw [addVectorDocs_comb_notmem _ _ _ _ _ hnd.1, dget_dset_self]
        simp
      · rw [ih _ _ hnd.2]
        by_cases hm : id ∈ validIds t
        · simp [hm, hid, dgetD, dget_dset_ne _ _ _ _ hid]
        · simp [hm, hid, dget_dset_ne _ _ _ _ hid]

theorem validIds_eq_map (l : List Doc) (hval : ∀ d ∈ l, d.doc_id ≠ []) :
    validIds l = l.map Doc.doc_id := by
  rw [validIds, List.filter_eq_self]
  intro x hx
  rcases List.mem_map.1 hx with ⟨d, hd, rfl⟩
  simpa using hval d hd

theorem rrfContribution_eq_zero (k : ℚ) (l : List Doc) (id : List Char)
    (h : id ∉ l.map Doc.doc_id) : rrfContribution k l id = 0 := by
  rw [rrfContribution]
  have hnone : l.findIdx? (fun d => decide (d.doc_id = id)) = none := by
    rw [List.findIdx?_eq_none_iff]
    intro x hx
    simp only [decide_eq_false_iff_not]
    intro hxe
    exact h (List.mem_map.2 ⟨x, hx, hxe⟩)
  rw [hnone]

theorem dget_dset_docid (all : List (List Char × Doc)) (key : List Char) (doc : Doc)
    (hdoc : doc.doc_id = key)
    (hinv : ∀ k d2, dget all k = some d2 → d2.doc_id = k) :
    ∀ k d2, dget (dset all key doc) k = some d2 → d2.doc_id = k := by
  intro k d2 hk
  by_cases hke : k = key
  · rw [hke, dget_dset_self] at hk
    rw [Option.some.inj hk] at hdoc
    rw [hdoc, hke]
  · rw [dget_dset_ne _ _ _ _ hke] at hk
    exact hinv k d2 hk

theorem addBm25Docs_all_docid (bm : List (List Char × ℚ)) (t : List Doc)
    (comb : List (List Char × ℚ)) (all : List (List Char × Doc))
    (hinv : ∀ k d2, dget all k = some d2 → d2.doc_id = k) :
    ∀ k d2, dget (addBm25Docs bm t comb all).2 k = some d2 → d2.doc_id = k := by
  induction t generalizing comb all with
  | nil => exact fun k d2 h => hinv k d2 h
  | cons d t ih =>
    by_cases hd : d.doc_id = []
    · rw [addBm25Docs, if_pos hd]
      exact ih _ _ hinv
    · rw [addBm25Docs, if_neg hd]
      exact ih _ _ (dget_dset_docid _ _ _ rfl hinv)

theorem addVectorDocs_all_docid (vs : List (List Char × ℚ)) (t : List Doc)
    (comb : List (List Char × ℚ)) (all : List (List Char × Doc))
    (hinv : ∀ k d2, dget all k = some d2 → d2.doc_id = k) :
    ∀ k d2, dget (addVectorDocs vs t comb all).2 k = some d2 → d2.doc_id = k := by
  induction t generalizing comb all with
  | nil => exact fun k d2 h => hinv k d2 h
  | cons d t ih =>
    by_cases hd : d.doc_id = []
    · rw [addVectorDocs, if_pos hd]
      exact ih _ _ hinv
    · rw [addVectorDocs, if_neg hd]
      rcases hg : dget all d.doc_id with _ | d0
      · simp only [hg]
        exact ih _ _ (dget_dset_docid _ _ _ rfl hinv)
      · simp only [hg]
        exact ih _ _ hinv

theorem addBm25Docs_all_mem (bm : List (List Char × ℚ)) (t : List Doc)
    (comb : List (List Char × ℚ)) (all : List (List Char × Doc)) :
    ∀ k d2, dget (addBm25Docs bm t comb all).2 k = some d2 →
      dget all k = some d2 ∨ d2 ∈ t := by
  induction t generalizing comb all with
  | nil => exact fun k d2 h => Or.inl h
  | cons d t ih =>
    intro k d2 h
    by_cases hd : d.doc_id = []
    · rw [addBm25Docs, if_pos hd] at h
      rcases ih _ _ k d2 h with h1 | h2
      · exact Or.inl h1
      · exact Or.inr (List.mem_cons_of_mem d h2)
    · rw [addBm25Docs, if_neg hd] at h
      rcases ih _ _ k d2 h with h1 | h2
      · by_cases hke : k = d.doc_id
        · rw [hke, dget_dset_self] at h1
          exact Or.inr (List.mem_cons.2 (Or.inl (Option.some.inj h1).symm))
        · rw [dget_dset_ne _ _ _ _ hke] at h1
          exact Or.inl h1
      · exact Or.inr (List.mem_cons_of_mem d h2)

theorem addVectorDocs_all_mem (vs : List (List Char × ℚ)) (t : List Doc)
    (comb : List (List Char × ℚ)) (all : List (List Char × Doc)) :
    ∀ k d2, dget (addVectorDocs vs t comb all).2 k = some d2 →
      dget all k = some d2 ∨ d2 ∈ t := by
  induction t generalizing comb all with
  | nil => exact fun k d2 h => Or.inl h
  | cons d t ih =>
    intro k d2 h
    by_cases hd : d.doc_id = []
    · rw [addVectorDocs, if_pos hd] at h
      rcases ih _ _ k d2 h with h1 | h2
      · exact Or.inl h1
      · exact Or.inr (List.mem_cons_of_mem d h2)
    · rw [addVectorDocs, if_neg hd] at h
      rcases hg : dget all d.doc_id with _ | d0
      · simp only [hg] at h
        rcases ih _ _ k d2 h with h1 | h2
        · by_cases hke : k = d.doc_id
          · rw [hke, dget_dset_self] at h1
            exact Or.inr (List.mem_cons.2 (Or.inl (Option.some.inj h1).symm))
          · rw [dget_dset_ne _ _ _ _ hke] at h1
            exact Or.inl h1
        · exact Or.inr (List.mem_cons_of_mem d h2)
      · simp only [hg] at h
        rcases ih _ _ k d2 h with h1 | h2
        · exact Or.inl h1
        · exact Or.inr (List.mem_cons_of_mem d h2)

theorem addVectorDocs_all_preserve (vs : List (List Char × ℚ)) (t : List Doc)
    (comb : List (List Char × ℚ)) (all : List (List Char × Doc)) (k : List Char) (d2 : Doc)
    (h : dget all k = some d2) :
    dget (addVectorDocs vs t comb all).2 k = some d2 := by
  induction t generalizing comb all with
  | nil => exact h
  | cons d t ih =>
    by_cases hd : d.doc_id = []
    · rw [addVectorDocs, if_pos hd]
      exact ih _ _ h
    · rw [addVectorDocs, if_neg hd]
      rcases hg : dget all d.doc_id with _ | d0
      · simp only [hg]
        have hke : k ≠ d.doc_id := by
          intro he
          rw [he, hg] at h
          exact Option.noConfusion h
        exact ih _ _ (by rw [dget_dset_ne _ _ _ _ hke, h])
      · simp only [hg]
        exact ih _ _ h

theorem addBm25Docs_all_found (bm : List (List Char × ℚ)) (t : List Doc)
    (comb : List (List Char × ℚ)) (all : List (List Char × Doc))
    (hval : ∀ d ∈ t, d.doc_id ≠ []) (hnd : (t.map Doc.doc_id).Nodup) :
    ∀ d2 ∈ t, dget (addBm25Docs bm t comb all).2 d2.doc_id = some d2 := by
  induction t generalizing comb all with
  | nil => intro d2 h; simp at h
  | cons d t ih =>
    intro d2 h2
    have hd : d.doc_id ≠ [] := hval d (List.mem_cons_self d t)
    simp only [List.map_cons, List.nodup_cons] at hnd
    rw [addBm25Docs, if_neg hd]
    rcases List.mem_cons.1 h2 with he | ht
    · have hnm : d.doc_id ∉ validIds t := by
        rw [validIds_eq_map t (fun x hx => hval x (List.mem_cons_of_mem d hx))]
        exact hnd.1
      rw [he, addBm25Docs_all_notmem _ _ _ _ _ hnm]
      exact dget_dset_self all d.doc_id d
    · exact ih _ _ (fun x hx => hval x (List.mem_cons_of_mem d hx)) hnd.2 d2 ht

theorem addBm25Docs_keys (bm : List (List Char × ℚ)) (t : List Doc)
    (comb : List (List Char × ℚ)) (all : List (List Char × Doc)) :
    (addBm25Docs bm t comb all).1.map Prod.fst =
      addKeys (comb.map Prod.fst) (validIds t) := by
  induction t generalizing comb all with
  | nil => simp [addBm25Docs, validIds, addKeys]
  | cons d t ih =>
    by_cases hd : d.doc_id = []
    · rw [addBm25Docs, if_pos hd, ih, validIds_cons, if_pos hd]
    · rw [addBm25Docs, if_neg hd, ih, validIds_cons, if_neg hd, addKeys, keys_dset]

theorem addVectorDocs_keys (vs : List (List Char × ℚ)) (t : List Doc)
    (comb : List (List Char × ℚ)) (all : List (List Char × Doc)) :
    (addVectorDocs vs t comb all).1.map Prod.fst =
      addKeys (comb.map Prod.fst) (validIds t) := by
  induction t generalizing comb all with
  | nil => simp [addVectorDocs, validIds, addKeys]
  | cons d t ih =>
    by_cases hd : d.doc_id = []
    · rw [addVectorDocs, if_pos hd, ih, validIds_cons, if_pos hd]
    · rw [addVectorDocs, if_neg hd]
      rcases hg : dget all d.doc_id with _ | d0 <;>
        simp only [hg] <;>
        rw [ih, validIds_cons, if_neg hd, addKeys, keys_dset]

theorem addKeys_nodup {α : Type} [DecidableEq α] (ks : List α) (l : List α)
    (h : ks.Nodup) : (addKeys ks l).Nodup := by
  induction l generalizing ks with
  | nil => exact h
  | cons a t ih =>
    rw [addKeys]
    by_cases ha : a ∈ ks
    · rw [if_pos ha]
      exact ih _ h
    · rw [if_neg ha]
      exact ih _ (List.Nodup.append h (List.nodup_singleton a)
        (by simpa [List.disjoint_singleton] using ha))

theorem addBm25Docs_keys_eq (bm : List (List Char × ℚ)) (t : List Doc)
    (comb : List (List Char × ℚ)) (all : List (List Char × Doc))
    (h : comb.map Prod.fst = all.map Prod.fst) :
    (addBm25Docs bm t comb all).1.map Prod.fst =
      (addBm25Docs bm t comb all).2.map Prod.fst := by
  induction t generalizing comb all with
  | nil => exact h
  | cons d t ih =>
    by_cases hd : d.doc_id = []
    · rw [addBm25Docs, if_pos hd]
      exact ih _ _ h
    · rw [addBm25Docs, if_neg hd]
      exact ih _ _ (by rw [keys_dset, keys_dset, h])

theorem addVectorDocs_keys_eq (vs : List (List Char × ℚ)) (t : List Doc)
    (comb : List (List Char × ℚ)) (all : List (List Char × Doc))
    (h : comb.map Prod.fst = all.map Prod.fst) :
    (addVectorDocs vs t comb all).1.map Prod.fst =
      (addVectorDocs vs t comb all).2.map Prod.fst := by
  induction t generalizing comb all with
  | nil => exact h
  | cons d t ih =>
    by_cases hd : d.doc_id = []
    · rw [addVectorDocs, if_pos hd]
      exact ih _ _ h
    · rw [addVectorDocs, if_neg hd]
      rcases hg : dget all d.doc_id with _ | d0
      · simp only [hg]
        refine ih _ _ ?_
        rw [keys_dset, keys_dset, h]
      · simp only [hg]
        refine ih _ _ ?_
        have hmem : d.doc_id ∈ all.map Prod.fst := by
          rcases dget_eq_none_iff all d.doc_id with ⟨h1, h2⟩
          by_contra hc
          rw [h2 hc] at hg
          exact Option.noConfusion hg
        rw [keys_dset, h, if_pos hmem]

theorem combinedScores_keys_nodup (k : ℚ) (a b : List Doc) :
    ((combinedScores k a b).map Prod.fst).Nodup := by
  rw [combinedScores, addVectorDocs_keys, addBm25Docs_keys]
  simp only [List.map_nil]
  rw [← addKeys_append]
  exact addKeys_nodup _ _ List.nodup_nil

theorem combinedScores_keys_eq (k : ℚ) (a b : List Doc) :
    (combinedScores k a b).map Prod.fst = (allDocs k a b).map Prod.fst := by
  rw [combinedScores, allDocs]
  exact addVectorDocs_keys_eq _ _ _ _ (addBm25Docs_keys_eq _ _ _ _ rfl)

theorem combinedScores_keys_order (k : ℚ) (a b : List Doc) :
    (combinedScores k a b).map Prod.fst = dedupFirst (validIds a ++ validIds b) := by
  rw [combinedScores, addVectorDocs_keys, addBm25Docs_keys, dedupFirst, addKeys_append]
  simp only [List.map_nil]

theorem dget_combinedScores (k : ℚ) (a b : List Doc) (id : List Char) (s : ℚ)
    (hvala : ∀ d ∈ a, d.doc_id ≠ []) (hnda : (a.map Doc.doc_id).Nodup)
    (hvalb : ∀ d ∈ b, d.doc_id ≠ []) (hndb : (b.map Doc.doc_id).Nodup)
    (h : dget (combinedScores k a b) id = some s) :
    s = rrfContribution k a id + rrfContribution k b id := by
  rw [combinedScores] at h
  rw [addVectorDocs_comb _ _ _ _ _ (by rw [validIds_eq_map b hvalb]; exact hndb)] at h
  rw [addBm25Docs_comb] at h
  by_cases hb : id ∈ validIds b
  · rw [if_pos hb] at h
    have hs := (Option.some.inj h).symm
    rw [hs, dgetD, addBm25Docs_comb]
    rw [dgetD_buildScores k b id hvalb hndb]
    by_cases ha : id ∈ validIds a
    · rw [if_pos ha]
      simp only [Option.getD_some]
      rw [dgetD_buildScores k a id hvala hnda]
    · rw [if_neg ha, rrfContribution_eq_zero k a id
        (by rw [← validIds_eq_map a hvala]; exact ha)]
      simp [dget]
  · rw [if_neg hb] at h
    rw [rrfContribution_eq_zero k b id (by rw [← validIds_eq_map b hvalb]; exact hb)]
    by_cases ha : id ∈ validIds a
    · rw [if_pos ha] at h
      have hs := (Option.some.inj h).symm
      rw [hs, dgetD_buildScores k a id hvala hnda]
      ring
    · rw [if_neg ha] at h
      simp [dget] at h

/-! ## Stability of the descending sort -/

theorem filter_orderedInsert_eq (s : ℚ) (p : List Char × ℚ) (l : List (List Char × ℚ))
    (hp : p.2 = s) :
    (List.orderedInsert scoreGe p l).filter (fun x => decide (x.2 = s)) =
      p :: l.filter (fun x => decide (x.2 = s)) := by
  induction l with
  | nil => simp [List.orderedInsert, hp]
  | cons b t ih =>
    rw [List.orderedInsert]
    by_cases hle : scoreGe p b
    · rw [if_pos hle]
      simp [hp]
    · rw [if_neg hle]
      have hbs : b.2 ≠ s := by
        intro he
        exact hle (show b.2 ≤ p.2 by rw [he, hp])
      simp only [List.filter_cons]
      rw [if_neg (by simpa using hbs), if_neg (by simpa using hbs), ih]

theorem filter_orderedInsert_ne (s : ℚ) (p : List Char × ℚ) (l : List (List Char × ℚ))
    (hp : p.2 ≠ s) :
    (List.orderedInsert scoreGe p l).filter (fun x => decide (x.2 = s)) =
      l.filter (fun x => decide (x.2 = s)) := by
  induction l with
  | nil => simp [List.orderedInsert, hp]
  | cons b t ih =>
    rw [List.orderedInsert]
    by_cases hle : scoreGe p b
    · rw [if_pos hle]
      simp [hp]
    · rw [if_neg hle]
      simp only [List.filter_cons]
      rw [ih]

theorem filter_insertionSort (s : ℚ) (l : List (List Char × ℚ)) :
    (List.insertionSort scoreGe l).filter (fun x => decide (x.2 = s)) =
      l.filter (fun x => decide (x.2 = s)) := by
  induction l with
  | nil => rfl
  | cons p t ih =>
    rw [List.insertionSort]
    by_cases hp : p.2 = s
    · rw [filter_orderedInsert_eq s p _ hp, ih]
      simp [hp]
    · rw [filter_orderedInsert_ne s p _ hp, ih]
      simp [hp]

/-! ## Fused-output helpers -/

theorem allDocs_spec (k : ℚ) (a b : List Doc) (id : List Char) (d : Doc)
    (h : dget (allDocs k a b) id = some d) : d.doc_id = id ∧ (d ∈ a ∨ d ∈ b) := by
  rw [allDocs] at h
  constructor
  · refine addVectorDocs_all_docid _ _ _ _ ?_ id d h
    refine addBm25Docs_all_docid _ _ _ _ ?_
    intro k2 d2 h2
    simp [dget] at h2
  · rcases addVectorDocs_all_mem _ _ _ _ id d h with h1 | h2
    · rcases addBm25Docs_all_mem _ _ _ _ id d h1 with h3 | h4
      · simp [dget] at h3
      · exact Or.inl h4
    · exact Or.inr h2

theorem allDocs_pref (k : ℚ) (a b : List Doc) (id : List Char) (d : Doc)
    (hvala : ∀ d2 ∈ a, d2.doc_id ≠ []) (hnda : (a.map Doc.doc_id).Nodup)
    (h : dget (allDocs k a b) id = some d) (hin : id ∈ a.map Doc.doc_id) : d ∈ a := by
  rcases List.mem_map.1 hin with ⟨da, hda, hdaid⟩
  have h1 : dget ((addBm25Docs (buildScores k a) a [] []).2) da.doc_id = some da :=
    addBm25Docs_all_found _ _ _ _ hvala hnda da hda
  have h2 : dget (allDocs k a b) id = some da := by
    rw [allDocs]
    exact hdaid ▸ addVectorDocs_all_preserve _ _ _ _ _ _ h1
  rw [h] at h2
  rw [Option.some.inj h2]
  exact hda

theorem combined_mem_dget (k : ℚ) (a b : List Doc) (p : List Char × ℚ)
    (hp : p ∈ combinedScores k a b) : dget (combinedScores k a b) p.1 = some p.2 :=
  dget_of_mem _ _ _ (combinedScores_keys_nodup k a b) hp

theorem mem_fused (k : ℚ) (a b : List Doc) (fd : FusedDoc)
    (h : fd ∈ reciprocal_rank_fusion k a b) :
    ∃ p ∈ combinedScores k a b,
      fd = { doc := dgetD (allDocs k a b) p.1 ⟨[], 0⟩
             rrf_score := p.2
             bm25_score := dgetD (buildScores k a) p.1 0
             vector_score := dgetD (buildScores k b) p.1 0 } := by
  rw [reciprocal_rank_fusion] at h
  rcases List.mem_map.1 h with ⟨p, hp, he⟩
  exact ⟨p, (List.mem_insertionSort scoreGe).1 hp, he.symm⟩

theorem fused_doc_of_mem (k : ℚ) (a b : List Doc) (p : List Char × ℚ)
    (hp : p ∈ combinedScores k a b) :
    ∃ d, dget (allDocs k a b) p.1 = some d ∧ d.doc_id = p.1 ∧ (d ∈ a ∨ d ∈ b) := by
  have hk : p.1 ∈ (allDocs k a b).map Prod.fst := by
    rw [← combinedScores_keys_eq]
    exact List.mem_map.2 ⟨p, hp, rfl⟩
  rcases dget_isSome_of_mem_keys _ _ hk with ⟨d, hd⟩
  rcases allDocs_spec k a b p.1 d hd with ⟨h1, h2⟩
  exact ⟨d, hd, h1, h2⟩

/-! ## Claim theorems -/

/-- C1 counterexample: for listA = [d1, d2] and listB = [d2, d3] with k = 60,
`reciprocal_rank_fusion` gives d2 the combined score 1/62 + 1/61 (d2 is at
rank 2 in listA and rank 1 in listB), which is not the 2/61 the claim states;
the fused order is [d2, d1, d3] and d1, d3 score 1/61, 1/62 as claimed. -/
theorem C1_example_score_not_2_61 :
    ((reciprocal_rank_fusion 60 [⟨ "d1".toList, 0⟩, ⟨ "d2".toList, 0⟩]
        [⟨ "d2".toList, 0⟩, ⟨ "d3".toList, 0⟩]).map fun fd => (fd.doc.doc_id, fd.rrf_score))
      = [( "d2".toList, 1/62 + 1/61), ( "d1".toList, 1/61), ( "d3".toList, 1/62)]
    ∧ ¬ ((1 : ℚ)/62 + 1/61 = 2/61) := by
  constructor
  · decide
  · decide

/-- C1 (amended): for ranked result lists with non-empty, per-list-distinct doc
ids, every fused entry's combined score is the sum over the two lists of
1/(k + rank) at the doc's 1-based rank (0 for a list not containing it), the
output is sorted descending by combined score, k defaults to 60, and for
listA = [d1, d2], listB = [d2, d3], k = 60 the fused order is [d2, d1, d3]
with scores 1/62 + 1/61, 1/61, 1/62. -/
theorem C1_rrf_sum_and_sorted (k : ℚ) (a b : List Doc)
    (hvala : ∀ d ∈ a, d.doc_id ≠ []) (hnda : (a.map Doc.doc_id).Nodup)
    (hvalb : ∀ d ∈ b, d.doc_id ≠ []) (hndb : (b.map Doc.doc_id).Nodup) :
    (∀ fd ∈ reciprocal_rank_fusion k a b,
        fd.rrf_score =
          rrfContribution k a fd.doc.doc_id + rrfContribution k b fd.doc.doc_id)
    ∧ (reciprocal_rank_fusion k a b).Pairwise (fun x y => y.rrf_score ≤ x.rrf_score)
    ∧ rrfKDefault = 60
    ∧ ((reciprocal_rank_fusion 60 [⟨ "d1".toList, 0⟩, ⟨ "d2".toList, 0⟩]
          [⟨ "d2".toList, 0⟩, ⟨ "d3".toList, 0⟩]).map fun fd => (fd.doc.doc_id, fd.rrf_score))
        = [( "d2".toList, 1/62 + 1/61), ( "d1".toList, 1/61), ( "d3".toList, 1/62)] := by
  refine ⟨?_, ?_, rfl, by decide⟩
  · intro fd hfd
    rcases mem_fused k a b fd hfd with ⟨p, hp, rfl⟩
    rcases fused_doc_of_mem k a b p hp with ⟨d, hd, hdid, _⟩
    simp only [dgetD, hd, Option.getD_some, hdid]
    exact dget_combinedScores k a b p.1 p.2 hvala hnda hvalb hndb
      (combined_mem_dget k a b p hp)
  · rw [reciprocal_rank_fusion]
    rw [List.pairwise_map]
    exact List.sorted_insertionSort scoreGe (combinedScores k a b)

/-- C1 witness: the amended theorem applied to the concrete example lists. -/
theorem C1_rrf_sum_and_sorted_witness :
    rrfKDefault = 60
    ∧ ((reciprocal_rank_fusion 60 [⟨ "d1".toList, 0⟩, ⟨ "d2".toList, 0⟩]
          [⟨ "d2".toList, 0⟩, ⟨ "d3".toList, 0⟩]).map fun fd => (fd.doc.doc_id, fd.rrf_score))
        = [( "d2".toList, 1/62 + 1/61), ( "d1".toList, 1/61), ( "d3".toList, 1/62)] := by
  have h := C1_rrf_sum_and_sorted 60 [⟨ "d1".toList, 0⟩, ⟨ "d2".toList, 0⟩]
    [⟨ "d2".toList, 0⟩, ⟨ "d3".toList, 0⟩] (by decide) (by decide) (by decide) (by decide)
  exact ⟨h.2.2.1, h.2.2.2⟩

/-- C5 counterexample: fusing a BM25 list holding doc d1 with backend score 5
and a vector list holding the same d1 with similarity score 9/10, the fused
output keeps only the BM25 copy and stores the two RRF contributions 1/61 in
`bm25_score` and `vector_score`: the vector source's original score 9/10
appears in no field of the output. -/
theorem C5_original_vector_score_lost :
    reciprocal_rank_fusion 60 [⟨ "d1".toList, 5⟩] [⟨ "d1".toList, 9/10⟩]
      = [⟨⟨ "d1".toList, 5⟩, 1/61 + 1/61, 1/61, 1/61⟩]
    ∧ ¬ ((1 : ℚ)/61 = 9/10) ∧ ¬ ((1 : ℚ)/61 + 1/61 = 9/10) ∧ ¬ ((5 : ℚ) = 9/10) := by
  refine ⟨by decide, by decide, by decide, by decide⟩

/-- C5 (amended): each fused entry's `bm25_score` and `vector_score` fields
hold that source's RRF contribution `1/(k + rank)` (0 when the doc is absent
from that list) — not the source's original relevance score — and the carried
document fields are those of one source's copy, the BM25 copy being preferred
when the doc appears in both lists. -/
theorem C5_fields_are_rrf_contributions (k : ℚ) (a b : List Doc)
    (hvala : ∀ d ∈ a, d.doc_id ≠ []) (hnda : (a.map Doc.doc_id).Nodup)
    (hvalb : ∀ d ∈ b, d.doc_id ≠ []) (hndb : (b.map Doc.doc_id).Nodup) :
    ∀ fd ∈ reciprocal_rank_fusion k a b,
      fd.bm25_score = rrfContribution k a fd.doc.doc_id
      ∧ fd.vector_score = rrfContribution k b fd.doc.doc_id
      ∧ (fd.doc ∈ a ∨ fd.doc ∈ b)
      ∧ (fd.doc.doc_id ∈ a.map Doc.doc_id → fd.doc ∈ a) := by
  intro fd hfd
  rcases mem_fused k a b fd hfd with ⟨p, hp, rfl⟩
  rcases fused_doc_of_mem k a b p hp with ⟨d, hd, hdid, hmem⟩
  simp only [dgetD, hd, Option.getD_some, hdid]
  refine ⟨dgetD_buildScores k a p.1 hvala hnda, dgetD_buildScores k b p.1 hvalb hndb,
    hmem, ?_⟩
  intro hin
  exact allDocs_pref k a b p.1 d hvala hnda hd hin

/-- C5 witness: the amended theorem applied at the counterexample's input: the
fused entry for d1 carries BM25 contribution 1/61 in `bm25_score`, vector
contribution 1/61 in `vector_score`, and the BM25 copy of the document. -/
theorem C5_fields_are_rrf_contributions_witness :
    (⟨⟨ "d1".toList, 5⟩, 1/61 + 1/61, 1/61, 1/61⟩ : FusedDoc).bm25_score
        = rrfContribution 60 [⟨ "d1".toList, 5⟩] "d1".toList
    ∧ (⟨⟨ "d1".toList, 5⟩, 1/61 + 1/61, 1/61, 1/61⟩ : FusedDoc).doc ∈
        [(⟨ "d1".toList, 5⟩ : Doc)] := by
  have h := C5_fields_are_rrf_contributions 60 [⟨ "d1".toList, 5⟩] [⟨ "d1".toList, 9/10⟩]
    (by decide) (by decide) (by decide) (by decide)
    ⟨⟨ "d1".toList, 5⟩, 1/61 + 1/61, 1/61, 1/61⟩ (by decide)
  exact ⟨h.1, h.2.2.2 (by decide)⟩

/-- C8: ties in `reciprocal_rank_fusion` keep first-encounter order: the
key sequence of `combined_scores` is the deduplicated concatenation of the
BM25 ids then the vector ids (first encounter while iterating the BM25 list
and then the vector list), and for every score value the docs carrying it
appear in the fused output exactly in their `combined_scores` (first
encounter) order — the sort is stable. -/
theorem C8_ties_keep_first_encounter_order (k : ℚ) (a b : List Doc) :
    (combinedScores k a b).map Prod.fst = dedupFirst (validIds a ++ validIds b)
    ∧ ∀ s : ℚ,
        ((reciprocal_rank_fusion k a b).filter fun fd => decide (fd.rrf_score = s)).map
            (fun fd => fd.doc.doc_id)
          = ((combinedScores k a b).filter fun p => decide (p.2 = s)).map Prod.fst := by
  refine ⟨combinedScores_keys_order k a b, ?_⟩
  intro s
  rw [reciprocal_rank_fusion, List.filter_map]
  have hpred : ((fun fd : FusedDoc => decide (fd.rrf_score = s)) ∘ fun p : List Char × ℚ =>
      ({ doc := dgetD (allDocs k a b) p.1 ⟨[], 0⟩, rrf_score := p.2,
         bm25_score := dgetD (buildScores k a) p.1 0,
         vector_score := dgetD (buildScores k b) p.1 0 } : FusedDoc))
      = fun p : List Char × ℚ => decide (p.2 = s) := rfl
  rw [hpred, filter_insertionSort, List.map_map]
  refine List.map_congr_left ?_
  intro p hp
  rcases fused_doc_of_mem k a b p (List.mem_of_mem_filter hp) with ⟨d, hd, hdid, _⟩
  simp only [Function.comp_apply, dgetD, hd, Option.getD_some, hdid]

/-- C4 counterexample: with the vector side of a hybrid request failing
(`Except.error ()`), `HybridRetriever.search` itself fails — it does not
return BM25-only output with a degradation flag (there is no try/except
around the vector call at hybrid_retriever.py line 122). -/
theorem C4_vector_failure_propagates :
    hybridSearch 60 [⟨ "d1".toList, 1⟩] (Except.error ()) true 10 = Except.error () := rfl

/-- C4 (amended): when the vector-search side of a hybrid request fails, the
failure propagates out of `HybridRetriever.search` to its caller (the
`/api/search` endpoint turns it into an HTTP 500); BM25-only output is
produced only on the `use_hybrid = False` path, labeled `bm25_only`, with no
degradation flag anywhere. -/
theorem C4_failure_or_bm25_only (k : ℚ) (bm : List Doc) (limit : ℕ) :
    hybridSearch k bm (Except.error ()) true limit = Except.error ()
    ∧ ∀ vres : Except Unit (List Doc),
        hybridSearch k bm vres false limit
          = Except.ok (HybridResponse.bm25Only bm bm.length) := by
  exact ⟨rfl, fun vres => rfl⟩

theorem hasTermOnList_eq_false (f : List Char) (l : List WQuery)
    (h : ∀ q ∈ l, hasTermOn f q = false) : hasTermOnList f l = false := by
  induction l with
  | nil => rfl
  | cons q t ih =>
    rw [hasTermOnList, h q (List.mem_cons_self q t), ih fun q2 h2 =>
      h q2 (List.mem_cons_of_mem q h2)]
    rfl

theorem hasTermOn_andCombine (f : List Char) (qs : List WQuery)
    (h : ∀ q ∈ qs, hasTermOn f q = false) : hasTermOn f (andCombine qs) = false := by
  match qs with
  | [] => rfl
  | [q] => exact h q (List.mem_singleton.2 rfl)
  | q1 :: q2 :: t =>
    show hasTermOnList f (q1 :: q2 :: t) = false
    exact hasTermOnList_eq_false f _ h

theorem hasTermOn_locationClause (f : List Char) (o : Option (List Char)) :
    ∀ q ∈ locationClause o, hasTermOn f q = false := by
  intro q hq
  rcases o with _ | c
  · simp [locationClause] at hq
  · rw [locationClause] at hq
    by_cases hc : c ≠ []
    · rw [if_pos hc] at hq
      rw [List.mem_singleton.1 hq, hasTermOn]
    · rw [if_neg hc] at hq
      simp at hq

theorem hasTermOn_locationClauses (f : List Char) (city country : Option (List Char)) :
    ∀ q ∈ locationClauses city country, hasTermOn f q = false := by
  intro q hq
  rcases List.mem_append.1 hq with h1 | h1
  · exact hasTermOn_locationClause f city q h1
  · exact hasTermOn_locationClause f country q h1

/-- C2: whenever the activities filter is non-empty and the strict combined
query returns zero hits, `search_with_filters` re-runs the search with the
relaxed query and returns the relaxed pass's (formatted) results; the relaxed
query carries no structured `activities`-field term at all — it is the
free-text OR over the expanded activity terms, ANDed with the city/country
free-text clauses when those filters are present. -/
theorem C2_zero_hit_fallback {α β : Type} (searcher : WQuery → List α) (fmt : α → β)
    (query : List Char) (city country : Option (List Char))
    (activities : List (List Char)) (hact : activities ≠ [])
    (hzero : searcher (strictQuery query city country activities) = []) :
    search_with_filters searcher fmt query city country activities
      = (searcher (fallbackQuery city country activities)).map fmt
    ∧ hasTermOn activitiesField (fallbackQuery city country activities) = false
    ∧ fallbackQuery city country activities
        = andCombine
            ([WQuery.parsed contentField (joinOr (dedupFirst (fallbackTerms activities)))] ++
              locationClauses city country) := by
  refine ⟨?_, ?_, rfl⟩
  · rw [search_with_filters, hzero]
    simp [hact]
  · refine hasTermOn_andCombine _ _ ?_
    intro q hq
    rcases List.mem_append.1 hq with h1 | h1
    · rw [List.mem_singleton.1 h1, hasTermOn]
    · exact hasTermOn_locationClauses _ city country q h1

/-- C2 witness: the theorem applied to a searcher that returns no hits for any
query, with one activity filter and no city/country filter. -/
theorem C2_zero_hit_fallback_witness :
    search_with_filters (fun _ : WQuery => ([] : List ℕ)) id "q".toList none none
        [ "a".toList]
      = ((fun _ : WQuery => ([] : List ℕ))
          (fallbackQuery none none [ "a".toList])).map id
    ∧ hasTermOn activitiesField (fallbackQuery none none [ "a".toList]) = false := by
  have h := C2_zero_hit_fallback (fun _ : WQuery => ([] : List ℕ)) id "q".toList none none
    [ "a".toList] (by decide) rfl
  exact ⟨h.1, h.2.1⟩

/-! ## Normalization fixed-point lemmas (for C3) -/

theorem dropWhile_head_false {p : Char → Bool} :
    ∀ (l : List Char) (c : Char) (t : List Char),
      List.dropWhile p l = c :: t → p c = false := by
  intro l
  induction l with
  | nil => intro c t h; simp [List.dropWhile] at h
  | cons a l2 ih =>
    intro c t h
    rw [List.dropWhile_cons] at h
    by_cases hp : p a
    · rw [if_pos hp] at h
      exact ih c t h
    · rw [if_neg hp] at h
      rw [← (List.cons.inj h).1]
      simpa using hp

theorem dropWhile_of_head_false {p : Char → Bool} (l : List Char)
    (h : ∀ c t, l = c :: t → p c = false) : List.dropWhile p l = l := by
  cases l with
  | nil => rfl
  | cons c t => rw [List.dropWhile_cons, if_neg (by simp [h c t rfl])]

theorem dropWhile_idem {p : Char → Bool} (l : List Char) :
    List.dropWhile p (List.dropWhile p l) = List.dropWhile p l :=
  dropWhile_of_head_false _ (fun c t h => dropWhile_head_false l c t h)

theorem getLast?_dropWhile {p : Char → Bool} (l : List Char)
    (h : List.dropWhile p l ≠ []) : (List.dropWhile p l).getLast? = l.getLast? := by
  obtain ⟨pre, hpre⟩ := (List.dropWhile_suffix p (l := l))
  conv_rhs => rw [← hpre]
  rw [List.getLast?_append]
  rcases hw : (List.dropWhile p l).getLast? with _ | c
  · exact absurd (List.getLast?_eq_none_iff.1 hw) h
  · rfl

theorem head?_dropWhile_false {p : Char → Bool} (l : List Char) (c : Char)
    (h : (List.dropWhile p l).head? = some c) : p c = false := by
  rcases hd : List.dropWhile p l with _ | ⟨c2, t⟩
  · rw [hd] at h
    simp at h
  · rw [hd] at h
    rw [← Option.some.inj h]
    exact dropWhile_head_false l c2 t hd

theorem stripStr_idem (s : List Char) : stripStr (stripStr s) = stripStr s := by
  have h1 : List.dropWhile pyIsSpace (stripStr s) = stripStr s := by
    apply dropWhile_of_head_false
    intro c t h
    have hh : (stripStr s).head? = some c := by rw [h]; rfl
    rw [stripStr, List.head?_reverse] at hh
    have hne : List.dropWhile pyIsSpace (List.dropWhile pyIsSpace s).reverse ≠ [] := by
      intro he
      rw [stripStr, he] at h
      simp at h
    rw [getLast?_dropWhile _ hne, List.getLast?_reverse] at hh
    exact head?_dropWhile_false _ _ hh
  rw [stripStr, h1, stripStr, List.reverse_reverse, dropWhile_idem]

theorem mem_stripStr (c : Char) (s : List Char) (h : c ∈ stripStr s) : c ∈ s := by
  rw [stripStr] at h
  rw [List.mem_reverse] at h
  have h2 := (List.dropWhile_sublist (l := (List.dropWhile pyIsSpace s).reverse)
    (p := pyIsSpace)).mem h
  rw [List.mem_reverse] at h2
  exact (List.dropWhile_sublist (p := pyIsSpace)).mem h2

theorem charToLower_idem (c : Char) : c.toLower.toLower = c.toLower := by
  rw [Char.toLower, Char.toLower]
  by_cases h : c.toNat ≥ 65 ∧ c.toNat ≤ 90
  · rw [if_pos h]
    have hval : Nat.isValidChar (c.toNat + 32) := by
      left
      omega
    have hv : (Char.ofNat (c.toNat + 32)).toNat = c.toNat + 32 := by
      rw [Char.ofNat, dif_pos hval]
      rfl
    rw [if_neg]
    rw [hv]
    omega
  · rw [if_neg h, if_neg h]

theorem lowerStr_fixed (t : List Char) (h : ∀ c ∈ t, c.toLower = c) : lowerStr t = t := by
  rw [lowerStr]
  exact (List.map_congr_left h).trans (List.map_id t)

theorem lowerStr_stripStr_lowerStr (y : List Char) :
    lowerStr (stripStr (lowerStr y)) = stripStr (lowerStr y) := by
  apply lowerStr_fixed
  intro c hc
  have hm : c ∈ lowerStr y := mem_stripStr c _ hc
  rcases List.mem_map.1 hm with ⟨c0, _, rfl⟩
  exact charToLower_idem c0

/-! ## normalizeNullField lemmas -/

theorem normalizeNullField_ok_other (fields : List (List Char × Json)) (key : List Char)
    (out : List (List Char × Json)) (k2 : List Char)
    (h : normalizeNullField fields key = Except.ok out) (hne : k2 ≠ key) :
    dget out k2 = dget fields k2 := by
  rw [normalizeNullField] at h
  split at h
  · split at h
    · split at h
      · split at h
        · rw [← Except.ok.inj h]
          exact dget_dset_ne _ _ _ _ hne
        · rw [← Except.ok.inj h]
      · exact Except.noConfusion h
    · rw [← Except.ok.inj h]
  · rw [← Except.ok.inj h]

theorem normalizeNullField_ok_safe (fields : List (List Char × Json)) (key : List Char)
    (out : List (List Char × Json))
    (h : normalizeNullField fields key = Except.ok out) :
    ∀ v2, dget out key = some v2 → safeNullStr v2 := by
  intro v2 hv2
  rw [normalizeNullField] at h
  split at h
  next v hg =>
    split at h
    next ht =>
      split at h
      next sv =>
        split at h
        next hn =>
          rw [← Except.ok.inj h, dget_dset_self] at hv2
          rw [← Option.some.inj hv2]
          intro s2 hs2
          exact Json.noConfusion hs2
        next hn =>
          rw [← Except.ok.inj h, hg] at hv2
          rw [← Option.some.inj hv2]
          intro s2 hs2
          rw [Json.jstr.inj hs2] at hn
          exact fun hand => hn hand.2
      next hnostr =>
        exact Except.noConfusion h
    next ht =>
      rw [← Except.ok.inj h, hg] at hv2
      rcases v with _ | b | n | sv | items | flds <;>
        rw [← Option.some.inj hv2] <;>
        intro s2 hs2 <;>
        first
        | exact Json.noConfusion hs2
        | · rw [hs2] at ht
            intro hand
            exact ht (by simpa [truthy] using hand.1)
  next hg =>
    rw [← Except.ok.inj h, hg] at hv2
    exact Option.noConfusion hv2

theorem normalizeActivities_spec (fs : List (List Char × Json)) :
    ∃ items, dget (normalizeActivities fs) activitiesKey = some (Json.jarr items)
      ∧ ∀ x ∈ items, ∃ s2, x = Json.jstr s2 ∧ lowerStr s2 = s2 ∧ stripStr s2 = s2 := by
  rw [normalizeActivities]
  split
  · refine ⟨_, dget_dset_self _ _ _, ?_⟩
    intro x hx
    rcases List.mem_map.1 hx with ⟨a, _, rfl⟩
    exact ⟨_, rfl, lowerStr_stripStr_lowerStr (pyStr a), stripStr_idem (lowerStr (pyStr a))⟩
  · exact ⟨[], dget_dset_self _ _ _, by intro x hx; simp at hx⟩

theorem normalizeActivities_other (fs : List (List Char × Json)) (k2 : List Char)
    (hne : k2 ≠ activitiesKey) :
    dget (normalizeActivities fs) k2 = dget fs k2 := by
  rw [normalizeActivities]
  split
  · exact dget_dset_ne _ _ _ _ hne
  · exact dget_dset_ne _ _ _ _ hne

theorem rewriteBody_ok_spec (jsonParse : List Char → Option Json)
    (llm : Option (List Char)) (q : List Char) (r : Json)
    (h : rewriteBody jsonParse llm q = Except.ok r) :
    ∃ fs fields2 fields3,
      normalizeNullField (normalizeActivities fs) cityKey = Except.ok fields2
      ∧ normalizeNullField fields2 countryKey = Except.ok fields3
      ∧ r = Json.jobj (dset fields3 originalQueryKey (Json.jstr q)) := by
  rw [rewriteBody.eq_def] at h
  split at h
  · exact Except.noConfusion h
  · split at h
    · exact Except.noConfusion h
    · split at h
      · split at h
        · exact Except.noConfusion h
        · split at h
          · exact Except.noConfusion h
          · exact ⟨_, _, _, by assumption, by assumption, (Except.ok.inj h).symm⟩
      · exact Except.noConfusion h

/-- C3: `rewrite_query` never lets a failure escape — when the LLM call fails
(`llm = none`) or its cleaned response does not parse, it returns exactly the
fallback `{city: null, country: null, activities: [], original_query: query}`;
and in every case the returned object's `city`/`country` are never a
(non-empty) literal "null" string (a parsed literal "null" is replaced by JSON
null), its `activities` is an array whose every entry is a lower-cased,
trimmed string, and `original_query` is the input query. -/
theorem C3_rewrite_fallback_and_normalization (jsonParse : List Char → Option Json)
    (llm : Option (List Char)) (q : List Char) :
    (llm = none → rewrite_query jsonParse llm q = fallbackFilter q)
    ∧ (∀ s, llm = some s → jsonParse (cleanContent s) = none →
        rewrite_query jsonParse llm q = fallbackFilter q)
    ∧ ∃ flds, rewrite_query jsonParse llm q = Json.jobj flds
        ∧ (∃ items, dget flds activitiesKey = some (Json.jarr items)
            ∧ ∀ x ∈ items, ∃ s2, x = Json.jstr s2 ∧ lowerStr s2 = s2 ∧ stripStr s2 = s2)
        ∧ (∀ v, dget flds cityKey = some v → safeNullStr v)
        ∧ (∀ v, dget flds countryKey = some v → safeNullStr v)
        ∧ dget flds originalQueryKey = some (Json.jstr q) := by
  refine ⟨?_, ?_, ?_⟩
  · intro h
    rw [h]
    rfl
  · intro s hs hp
    have hb : rewriteBody jsonParse (some s) q = Except.error () := by
      rw [rewriteBody.eq_def]
      simp only [hp]
    rw [hs, rewrite_query.eq_def, hb]
  · rcases hbody : rewriteBody jsonParse llm q with e | r
    · refine ⟨[(cityKey, Json.jnull), (countryKey, Json.jnull),
          (activitiesKey, Json.jarr []), (originalQueryKey, Json.jstr q)],
        ?_, ⟨[], rfl, by intro x hx; simp at hx⟩, ?_, ?_, rfl⟩
      · rw [rewrite_query.eq_def, hbody]
        rfl
      · intro v hv
        have hveq : Json.jnull = v := Option.some.inj hv
        rw [← hveq]
        intro s2 hs2
        exact Json.noConfusion hs2
      · intro v hv
        have hveq : Json.jnull = v := Option.some.inj hv
        rw [← hveq]
        intro s2 hs2
        exact Json.noConfusion hs2
    · rcases rewriteBody_ok_spec jsonParse llm q r hbody with ⟨fs, f2, f3, hc, hco, hr⟩
      have hout : rewrite_query jsonParse llm q = r := by
        rw [rewrite_query.eq_def, hbody]
      rcases normalizeActivities_spec fs with ⟨items, hact, hprops⟩
      refine ⟨dset f3 originalQueryKey (Json.jstr q), by rw [hout, hr],
        ⟨items, ?_, hprops⟩, ?_, ?_, dget_dset_self _ _ _⟩
      · rw [dget_dset_ne _ _ _ _ (by decide),
          normalizeNullField_ok_other _ _ _ _ hco (by decide),
          normalizeNullField_ok_other _ _ _ _ hc (by decide), hact]
      · intro v hv
        rw [dget_dset_ne _ _ _ _ (by decide),
          normalizeNullField_ok_other _ _ _ _ hco (by decide)] at hv
        exact normalizeNullField_ok_safe _ _ _ hc v hv
      · intro v hv
        rw [dget_dset_ne _ _ _ _ (by decide)] at hv
        exact normalizeNullField_ok_safe _ _ _ hco v hv

/-- C3 witness: with a parse function that rejects everything and a returned
completion, `rewrite_query` returns exactly the fallback dict. -/
theorem C3_rewrite_fallback_witness :
    rewrite_query (fun _ => none) (some ( "oops".toList)) ( "find hotels".toList)
      = fallbackFilter ( "find hotels".toList) :=
  (C3_rewrite_fallback_and_normalization (fun _ => none) (some ( "oops".toList))
    ( "find hotels".toList)).2.1 ( "oops".toList) rfl rfl

/-! ## ActivityMatcher lemmas -/

theorem containsSub_nil (hay : List Char) : containsSub hay [] = true := by
  cases hay <;> rfl

theorem mem_expand_norm (t : List Char) : pyNormalize t ∈ expand_activity t := by
  simp only [expand_activity, List.mem_append]
  exact Or.inl (Or.inl (Or.inl (Or.inl (Or.inl (List.mem_cons_self _ _)))))

theorem mem_expand_plural (t : List Char) :
    (if endsS (pyNormalize t) then dropLast1 (pyNormalize t)
     else pyNormalize t ++ ['s']) ∈ expand_activity t := by
  simp only [expand_activity, List.mem_append]
  refine Or.inl (Or.inr ?_)
  by_cases h : endsS (pyNormalize t) <;> simp [h]

theorem fuzzy_match_empty_norm (q d : List Char) (t : ℚ) (h : pyNormalize q = []) :
    fuzzy_match q d t = true := by
  simp [fuzzy_match, h, containsSub_nil]

theorem simple_similarity_eq_spec (s1 s2 : List Char) (h1 : s1 ≠ []) (h2 : s2 ≠ []) :
    simple_similarity s1 s2 = specSimilarity s1 s2 := by
  have hmax : max s1.length s2.length ≠ 0 := by
    simp only [ne_eq, Nat.max_eq_zero_iff, List.length_eq_zero]
    exact fun hand => h1 hand.1
  simp [simple_similarity, specSimilarity, h1, h2, hmax]

theorem containsSub_ne_nil (hay needle : List Char) (h : containsSub hay needle = false) :
    needle ≠ [] := by
  intro he
  rw [he, containsSub_nil hay] at h
  exact Bool.noConfusion h

set_option maxRecDepth 8000

/-- C6: `expand_activity` always contains the normalized input term, plus the
plural/singular toggle of it — without the trailing `s` when the normalized
term ends in `s`, with `s` appended otherwise; in particular the expansions of
"tour" and of "tours" each contain both "tour" and "tours". -/
theorem C6_expand_identity_and_plural_toggle (t : List Char) :
    pyNormalize t ∈ expand_activity t
    ∧ (endsS (pyNormalize t) = true → dropLast1 (pyNormalize t) ∈ expand_activity t)
    ∧ (endsS (pyNormalize t) = false → pyNormalize t ++ ['s'] ∈ expand_activity t)
    ∧ "tour".toList ∈ expand_activity ( "tour".toList)
    ∧ "tours".toList ∈ expand_activity ( "tour".toList)
    ∧ "tour".toList ∈ expand_activity ( "tours".toList)
    ∧ "tours".toList ∈ expand_activity ( "tours".toList) := by
  refine ⟨mem_expand_norm t, ?_, ?_, by decide, by decide, by decide, by decide⟩
  · intro h
    have := mem_expand_plural t
    rwa [if_pos h] at this
  · intro h
    have := mem_expand_plural t
    rwa [if_neg (by simp [h])] at this

/-- C6 witness: the theorem at t = "tour" (whose normalized form does not end
in `s`): the expansion contains "tour" with "s" appended. -/
theorem C6_expand_witness :
    pyNormalize ( "tour".toList) ++ ['s'] ∈ expand_activity ( "tour".toList) :=
  (C6_expand_identity_and_plural_toggle ( "tour".toList)).2.2.1 (by decide)

/-- C7: outside the exact-match, substring and plural-variant cases,
`_fuzzy_match` returns true exactly when the character-overlap similarity —
the number of characters of the (normalized) first string appearing anywhere
in the (normalized) second, divided by the larger length — reaches the
threshold; the measure is order- and multiplicity-insensitive, e.g.
"abc" against "cab" scores 1. -/
theorem C7_fuzzy_similarity_iff (a b : List Char) (t : ℚ)
    (hne : pyNormalize a ≠ pyNormalize b)
    (hsub1 : containsSub (pyNormalize b) (pyNormalize a) = false)
    (hsub2 : containsSub (pyNormalize a) (pyNormalize b) = false)
    (hpl : is_plural_variant (pyNormalize a) (pyNormalize b) = false) :
    (fuzzy_match a b t = true ↔ specSimilarity (pyNormalize a) (pyNormalize b) ≥ t)
    ∧ specSimilarity ( "abc".toList) ( "cab".toList) = 1 := by
  refine ⟨?_, by decide⟩
  have hna : pyNormalize a ≠ [] := containsSub_ne_nil _ _ hsub1
  have hnb : pyNormalize b ≠ [] := containsSub_ne_nil _ _ hsub2
  rw [fuzzy_match.eq_def]
  simp only [hne, hsub1, hsub2, hpl, if_false, Bool.or_self, Bool.false_or]
  rw [simple_similarity_eq_spec _ _ hna hnb]
  by_cases ht : specSimilarity (pyNormalize a) (pyNormalize b) ≥ t
  · simp [ht]
  · simp [ht]

/-- C7 witness: the theorem at a = "abcde", b = "eabcd", threshold 4/5 — the
pair passes none of the earlier cases, every character of `a` occurs in `b`,
so the similarity is 1 ≥ 4/5 and the match succeeds. -/
theorem C7_fuzzy_similarity_witness :
    fuzzy_match ( "abcde".toList) ( "eabcd".toList) (4 / 5) = true ↔
      specSimilarity (pyNormalize ( "abcde".toList)) (pyNormalize ( "eabcd".toList)) ≥ 4 / 5 :=
  (C7_fuzzy_similarity_iff ( "abcde".toList) ( "eabcd".toList) (4 / 5)
    (by decide) (by decide) (by decide) (by decide)).1

/-- C9 counterexample: "classes" and "classing" stand in the claim's
plural/singular variant relationship (stripping the "es" and "ing" suffixes
from both yields the common base "class" of length 5 > 2), yet
`_is_plural_variant` rejects the pair: its `rstrip`-based bases are "cla"
(every trailing character in the class `{e, s}` is removed from "classe")
and "class", which differ. -/
theorem C9_suffix_vs_rstrip_counterexample :
    is_plural_variant ( "classes".toList) ( "classing".toList) = false
    ∧ specPluralVariant ( "classes".toList) ( "classing".toList) := by
  constructor
  · decide
  · unfold specPluralVariant
    decide

/-- C9 (amended): `_is_plural_variant` returns true exactly when the two
strings have equal Python-`rstrip` bases of length > 2 (removing every
trailing `'s'`, then every trailing character in `{e, s}`, then every trailing
character in `{i, n, g}` — a character-class strip, not literal suffix
stripping), or one equals the other with a trailing "s" or "es" appended; for
example "hiking"/"hikes" is accepted (both bases are "hik"). -/
theorem C9_variant_characterization (a b : List Char) :
    (is_plural_variant a b = true ↔
      ((pyRstrip ['i', 'n', 'g'] (pyRstrip ['e', 's'] (pyRstrip ['s'] a))
            = pyRstrip ['i', 'n', 'g'] (pyRstrip ['e', 's'] (pyRstrip ['s'] b))
          ∧ (pyRstrip ['i', 'n', 'g'] (pyRstrip ['e', 's'] (pyRstrip ['s'] a))).length > 2)
        ∨ a = b ++ ['s'] ∨ a = b ++ ['e', 's'] ∨ b = a ++ ['s'] ∨ b = a ++ ['e', 's']))
    ∧ is_plural_variant ( "hiking".toList) ( "hikes".toList) = true := by
  refine ⟨?_, by decide⟩
  simp only [is_plural_variant]
  split_ifs with h1 h2 h3
  · exact iff_of_true rfl (Or.inl h1)
  · refine iff_of_true rfl ?_
    rcases h2 with h | h
    · exact Or.inr (Or.inl h)
    · exact Or.inr (Or.inr (Or.inl h))
  · refine iff_of_true rfl ?_
    rcases h3 with h | h
    · exact Or.inr (Or.inr (Or.inr (Or.inl h)))
    · exact Or.inr (Or.inr (Or.inr (Or.inr h)))
  · refine iff_of_false not_false ?_
    rintro (h | h | h | h | h)
    · exact h1 h
    · exact h2 (Or.inl h)
    · exact h2 (Or.inr h)
    · exact h3 (Or.inl h)
    · exact h3 (Or.inr h)

/-- C10: a query term that normalizes to the empty string fuzzy-matches every
data string (the empty string passes the substring-containment check against
everything), so `match_activities` returns true for any query list containing
such a term against any non-empty data list. -/
theorem C10_empty_norm_matches_all :
    (∀ q d t, pyNormalize q = [] → fuzzy_match q d t = true)
    ∧ (∀ qs ds q0, q0 ∈ qs → pyNormalize q0 = [] → ds ≠ [] →
        match_activities qs ds = true) := by
  refine ⟨fun q d t h => fuzzy_match_empty_norm q d t h, ?_⟩
  intro qs ds q0 hq0 hnorm hne
  have hqs : qs ≠ [] := by
    intro he
    rw [he] at hq0
    simp at hq0
  rw [match_activities]
  rw [if_neg (by push_neg; exact ⟨hqs, hne⟩)]
  rcases ds with _ | ⟨d0, dt⟩
  · exact absurd rfl hne
  · rw [List.any_cons]
    have hmem : ([] : List Char) ∈ qs.flatMap expand_activity := by
      rw [List.mem_flatMap]
      exact ⟨q0, hq0, hnorm ▸ mem_expand_norm q0⟩
    have hfz : (qs.flatMap expand_activity).any
        (fun q => fuzzy_match q d0 (4 / 5)) = true := by
      rw [List.any_eq_true]
      exact ⟨[], hmem, fuzzy_match_empty_norm [] d0 (4 / 5) rfl⟩
    rw [Bool.or_eq_true]
    exact Or.inl (by rw [Bool.or_eq_true]; exact Or.inr hfz)

/-- C10 witness: the theorem applied to the whitespace-only query term " "
(normalizing to the empty string) against the data list ["x"]. -/
theorem C10_empty_norm_matches_all_witness :
    match_activities [ " ".toList] [ "x".toList] = true :=
  C10_empty_norm_matches_all.2 [ " ".toList] [ "x".toList] ( " ".toList)
    (List.mem_cons_self _ _) (by decide) (by decide)
